import Mathlib

/-!
# Verification of the gun-rs graph-database core (`src/lib.rs`)

This file gives a shallow embedding of the data model and the operations of
the gun-rs node: the `GunValue` tagged union and its serde JSON encoding, the
vertex record (`Node` in the source), the shared node store, the traversal
and write operations (`new_child`, `get_child_id`, `get`, `put_local`,
`put`, `on`, `map`, `off`), the message encoder `create_put_msg`, and the
merge engine (`incoming_message`, `incoming_put`, `incoming_get`).

Modelling conventions:
* Rust `f64`/`f32` timestamps and numbers are modelled by `ℚ`.  The code
  only compares timestamps with `<` and JSON cannot carry NaN, so the order
  structure is faithful.
* `serde_json::Value` is modelled by `Json` below; `serde_json::Map`
  (a `BTreeMap`) is modelled by an association list; where the iteration
  order of a map matters (the top-level object of a `put` frame) theorems
  carry an explicit sortedness hypothesis.
* Panics (`assert!`, `unwrap()`) are modelled by an error result that is
  paired with the state reached so far, because a panic in the handler
  thread leaves the shared store in its partially-updated state.
* `Arc<RwLock<...>>`-shared node fields are modelled by a single record per
  vertex id; a Rust `Node` handle is modelled by its vertex id.  The root
  (id 0) lives outside the store, exactly as in `Node::new()`, which never
  inserts the root into `self.store`.
* Subscription callbacks are external code that only observes values; their
  invocation has no effect on the graph state, so `on`/`map`/`off` are
  modelled by their subscription-table updates (and the shared id counter).
* The wall clock read by `put` is an arbitrary external input and appears
  as an explicit `ℚ` parameter.
* `random_string(8)` message ids are an arbitrary external input and appear
  as an explicit `String` parameter; the merge engine ignores them.
-/

/-- JSON values (`serde_json::Value`); objects are association lists
(the source's `serde_json::Map`, a `BTreeMap` iterated in sorted key order). -/
inductive Json where
  | null : Json
  | bool (b : Bool) : Json
  | num (q : ℚ) : Json
  | str (s : String) : Json
  | arr (l : List Json) : Json
  | obj (l : List (String × Json)) : Json
deriving Repr

/-- `GunValue` from the source: the tagged value union.  `Number` carries an
`f32`, `Link` a `usize`, `Children` a `BTreeMap<String, GunValue>` (here an
association list in sorted key order). -/
inductive GunValue where
  | Null : GunValue
  | Bit (b : Bool) : GunValue
  | Number (q : ℚ) : GunValue
  | Text (s : String) : GunValue
  | Link (id : Nat) : GunValue
  | Children (m : List (String × GunValue)) : GunValue
deriving Repr

/-- Association-list lookup (`BTreeMap::get` / `HashMap::get`). -/
def alookup {β : Type} : List (String × β) → String → Option β
  | [], _ => none
  | (a, b) :: t, k => if a = k then some b else alookup t k

/-- Association-list lookup with `Nat` keys (the node store). -/
def nlookup {β : Type} : List (Nat × β) → Nat → Option β
  | [], _ => none
  | (a, b) :: t, k => if a = k then some b else nlookup t k

/-- Association-list insert-or-replace (`BTreeMap::insert` / `HashMap::insert`). -/
def ainsert {β : Type} : List (String × β) → String → β → List (String × β)
  | [], k, v => [(k, v)]
  | (a, b) :: t, k, v => if a = k then (k, v) :: t else (a, b) :: ainsert t k v

/-- Insert-or-replace with `Nat` keys. -/
def ninsert {β : Type} : List (Nat × β) → Nat → β → List (Nat × β)
  | [], k, v => [(k, v)]
  | (a, b) :: t, k, v => if a = k then (k, v) :: t else (a, b) :: ninsert t k v

/-- `value.get(key)` on a `serde_json::Value`: `Some` only for objects that
contain the key. -/
def jOptGet (j : Json) (k : String) : Option Json :=
  match j with
  | .obj l => alookup l k
  | _ => none

/-- `value[key]` indexing on a `serde_json::Value`: returns JSON `null` when
the value is not an object or the key is absent. -/
def jGet (j : Json) (k : String) : Json :=
  match jOptGet j k with
  | some v => v
  | none => .null

/-- `value.as_object()`. -/
def Json.asObj : Json → Option (List (String × Json))
  | .obj l => some l
  | _ => none

/-- `value.as_f64()`: JSON numbers only (JSON has no NaN/Inf literals). -/
def Json.asNum : Json → Option ℚ
  | .num q => some q
  | _ => none

mutual
/-- serde's derived `Serialize` for `GunValue`: the externally tagged enum
representation.  A unit variant serializes as its name (a JSON string); a
newtype variant as the single-entry object `{"<name>": <payload>}`. -/
def encodeGunValue : GunValue → Json
  | .Null => .str "Null"
  | .Bit b => .obj [("Bit", .bool b)]
  | .Number q => .obj [("Number", .num q)]
  | .Text s => .obj [("Text", .str s)]
  | .Link id => .obj [("Link", .num (id : ℚ))]
  | .Children m => .obj [("Children", .obj (encodeEntries m))]

/-- Encoding of a `Children` map, entry by entry (keys keep the `BTreeMap`
order of the source map). -/
def encodeEntries : List (String × GunValue) → List (String × Json)
  | [] => []
  | (k, v) :: t => (k, encodeGunValue v) :: encodeEntries t
end

mutual
/-- serde's derived `Deserialize` for `GunValue` on a `serde_json::Value`
(`serde_json::from_value::<GunValue>`): accepts the externally tagged
representation and fails (`Err`, modelled by `none`) on anything else.
`Link` requires a non-negative integer (Rust `usize`). -/
def decodeGunValue : Json → Option GunValue
  | .str s => if s = "Null" then some .Null else none
  | .obj [(tag, payload)] =>
      if tag = "Bit" then
        match payload with
        | .bool b => some (.Bit b)
        | _ => none
      else if tag = "Number" then
        match payload with
        | .num q => some (.Number q)
        | _ => none
      else if tag = "Text" then
        match payload with
        | .str s => some (.Text s)
        | _ => none
      else if tag = "Link" then
        match payload with
        | .num q => if q.den = 1 ∧ 0 ≤ q then some (.Link q.num.toNat) else none
        | _ => none
      else if tag = "Children" then
        match payload with
        | .obj l => (decodeEntries l).map GunValue.Children
        | _ => none
      else none
  | _ => none

/-- Decoding of the entries of a `Children` object; any undecodable entry
fails the whole map, as serde does. -/
def decodeEntries : List (String × Json) → Option (List (String × GunValue))
  | [] => some []
  | (k, j) :: t =>
      match decodeGunValue j, decodeEntries t with
      | some v, some r => some ((k, v) :: r)
      | _, _ => none
end

/-- Panics of the source, modelled as errors:
* `keyLen` — `assert!(key.len() > 0, "Key length must be greater than zero")`
  in `new_child`;
* `storeMiss` — the `unwrap()` of a store lookup in `get`;
* `notNum` — `incoming_val_updated_at.as_f64().unwrap()` in `incoming_put`. -/
inductive Err where
  | keyLen : Err
  | storeMiss : Err
  | notNum : Err
deriving DecidableEq, Repr

/-- One vertex record (the shared contents of a `Node`'s `Arc<RwLock<..>>`
fields).  Subscription callbacks are external observers; the tables keep
only the subscription ids. -/
structure NodeRec where
  id : Nat
  updatedAt : ℚ
  key : String
  path : List String
  value : Option GunValue
  children : List (String × Nat)
  parents : List (Nat × String)
  onSubs : List Nat
  mapSubs : List Nat
deriving Repr

/-- The whole shared state: the root vertex (id 0, which `Node::new()` never
inserts into the store), the store (`SharedNodeStore`), and the global id
counter `COUNTER` (`nextId` is the value the next `get_id()` returns). -/
structure State where
  root : NodeRec
  store : List (Nat × NodeRec)
  nextId : Nat
deriving Repr

/-- The state `Node::new()` builds: root id 0, `updated_at` 0, empty key and
path, empty store, counter at 1.  (The websocket adapter it registers only
affects message transport, not the graph.) -/
def initState : State :=
  { root := { id := 0, updatedAt := 0, key := "", path := [], value := none,
              children := [], parents := [], onSubs := [], mapSubs := [] },
    store := [], nextId := 1 }

/-- `self.store.read().get(&id)`: a store lookup.  The root is *not* in the
store, so `storeLookup s 0 = none` in every reachable state. -/
def storeLookup (s : State) (i : Nat) : Option NodeRec :=
  nlookup s.store i

/-- Dereference a held `Node` handle: id 0 is the root record, every other
handle denotes its store record. -/
def handleLookup (s : State) (i : Nat) : Option NodeRec :=
  if i = 0 then some s.root else storeLookup s i

/-- Write through a handle (the `Arc` fields are shared between the handle
and the store record, so a handle write is a store write; the root's record
lives in `State.root`). -/
def updNode (s : State) (i : Nat) (f : NodeRec → NodeRec) : State :=
  if i = 0 then { s with root := f s.root }
  else
    match storeLookup s i with
    | some r => { s with store := ninsert s.store i (f r) }
    | none => s

/-- `fn new_child(&self, key: String) -> usize`.  Asserts the key nonempty,
allocates the next id, derives the child path by appending `self.key` to
`self.path` when `self.key` is nonempty, records the single parent edge,
inserts the child into the store and into `self.children`. -/
def newChild (i : Nat) (k : String) (s : State) : Except Err Nat × State :=
  if k = "" then (.error .keyLen, s)
  else
    match handleLookup s i with
    | none => (.error .storeMiss, s)
    | some self =>
      let cid := s.nextId
      let childPath := self.path ++ (if self.key = "" then [] else [self.key])
      let child : NodeRec :=
        { id := cid, updatedAt := 0, key := k, path := childPath, value := none,
          children := [], parents := [(i, k)], onSubs := [], mapSubs := [] }
      let s₁ : State := { s with store := ninsert s.store cid child, nextId := s.nextId + 1 }
      let s₂ := updNode s₁ i (fun n => { n with children := ainsert n.children k cid })
      (.ok cid, s₂)

/-- `fn get_child_id(&mut self, key: String) -> usize`: if the vertex holds a
scalar, unconditionally allocate a new child; otherwise return the existing
child id or allocate one. -/
def getChildId (i : Nat) (k : String) (s : State) : Except Err Nat × State :=
  match handleLookup s i with
  | none => (.error .storeMiss, s)
  | some self =>
    if self.value.isSome then newChild i k s
    else
      match alookup self.children k with
      | some cid => (.ok cid, s)
      | none => newChild i k s

/-- `pub fn get(&mut self, key: &str) -> Node`: `get_child_id` followed by
`self.store.read().get(&id).unwrap()` (the returned handle is the child id;
the handle's `key` override does not change the stored record). -/
def getOp (i : Nat) (k : String) (s : State) : Except Err Nat × State :=
  match getChildId i k s with
  | (.ok cid, s₁) =>
      match storeLookup s₁ cid with
      | some _ => (.ok cid, s₁)
      | none => (.error .storeMiss, s₁)
  | (.error e, s₁) => (.error e, s₁)

/-- The parent loop of `put_local`: for each `(parent_id, key)` in the
written vertex's `parents`, clear the parent's `value` — but only when the
parent id is found in the *store*, so the root (id 0) is never cleared. -/
def clearParents (ps : List (Nat × String)) (s : State) : State :=
  ps.foldl
    (fun acc pk =>
      match nlookup acc.store pk.1 with
      | some r => { acc with store := ninsert acc.store pk.1 { r with value := none } }
      | none => acc)
    s

/-- `fn put_local(&mut self, value: GunValue, time: f64)`: set
`updated_at := time`, `value := Some(value)`, `children := {}`, fire the
subscriptions (external observers, no graph effect), then run the parent
loop.  A junk handle leaves the state unchanged (unreachable from real
handles). -/
def putLocalOn (i : Nat) (v : GunValue) (t : ℚ) (s : State) : State :=
  match handleLookup s i with
  | none => s
  | some self =>
    let s₁ := updNode s i (fun n => { n with updatedAt := t, value := some v, children := [] })
    clearParents self.parents s₁

/-- `pub fn put(&mut self, value: GunValue)`: one wall-clock read `t`
(external input), `put_local`, then broadcast of `create_put_msg` (transport
only, no graph effect). -/
def putOp (i : Nat) (v : GunValue) (t : ℚ) (s : State) : State :=
  putLocalOn i v t s

/-- `pub fn on(&mut self, callback) -> usize`: calls the callback on the
current value (read only), registers it under a fresh `get_id()`, and emits
a wire `get` (transport only).  Registration bumps the shared counter. -/
def onOp (i : Nat) (s : State) : State :=
  match handleLookup s i with
  | none => s
  | some _ =>
    let sub := s.nextId
    let s₁ : State := { s with nextId := s.nextId + 1 }
    updNode s₁ i (fun n => { n with onSubs := sub :: n.onSubs })

/-- `pub fn map(&self, callback) -> usize`: calls the callback on each child
value (read only) and registers it in `map_subscriptions` under a fresh
`get_id()`. -/
def mapOp (i : Nat) (s : State) : State :=
  match handleLookup s i with
  | none => s
  | some _ =>
    let sub := s.nextId
    let s₁ : State := { s with nextId := s.nextId + 1 }
    updNode s₁ i (fun n => { n with mapSubs := sub :: n.mapSubs })

/-- `pub fn off(&mut self, subscription_id: usize)`: remove the id from both
subscription tables. -/
def offOp (i : Nat) (sub : Nat) (s : State) : State :=
  updNode s i (fun n =>
    { n with onSubs := n.onSubs.filter (· ≠ sub),
             mapSubs := n.mapSubs.filter (· ≠ sub) })

/-- Rust `str::split('/')` collected in order: always at least one piece;
separators at either end contribute empty pieces. -/
def splitSlashChars : List Char → List Char → List (List Char)
  | [], acc => [acc.reverse]
  | c :: rest, acc =>
      if c = '/' then acc.reverse :: splitSlashChars rest []
      else splitSlashChars rest (c :: acc)

/-- `updated_key.split("/")` on a `String`. -/
def splitSlash (p : String) : List String :=
  (splitSlashChars p.data []).map List.asString

/-- Lexicographic comparison of strings as character lists (the `Ord` a Rust
`BTreeMap<String, _>` sorts by). -/
def charListLt : List Char → List Char → Bool
  | [], [] => false
  | [], _ :: _ => true
  | _ :: _, [] => false
  | a :: as, b :: bs =>
      if a.toNat < b.toNat then true
      else if b.toNat < a.toNat then false
      else charListLt as bs

/-- String order for the `BTreeMap` model. -/
def strLt (a b : String) : Bool := charListLt a.data b.data

/-- Insert into a JSON object in `BTreeMap` key order (how `json!` builds a
`serde_json::Map` and how `puts[path] = path_obj` inserts). -/
def objInsert (l : List (String × Json)) (k : String) (v : Json) : List (String × Json) :=
  match l with
  | [] => [(k, v)]
  | (a, b) :: t =>
      if strLt k a then (k, v) :: (a, b) :: t
      else if k = a then (k, v) :: t
      else (a, b) :: objInsert t k v

/-- A two-entry `serde_json::Map` built by inserting `k1` then `k2` into an
empty map (`json!` object literal evaluation order); if the keys collide the
second insert overwrites the first. -/
def obj2 (k1 : String) (v1 : Json) (k2 : String) (v2 : Json) : Json :=
  .obj (objInsert (objInsert [] k1 v1) k2 v2)

/-- The per-path entry of a `put` frame:
`{"_": {"#": full_path, ">": {key: updated_at}}, key: value}`. -/
def putEntry (fullPath key : String) (valJson : Json) (t : ℚ) : Json :=
  obj2 "_" (obj2 "#" (.str fullPath) ">" (.obj [(key, .num t)])) key valJson

/-- `fn create_put_msg(&self, value: &GunValue, updated_at: f64) -> String`.
`path`/`key` are the sender vertex's fields, `t` the timestamp, `msgId` the
`random_string(8)` envelope id.  The main entry is keyed by the `/`-joined
path; the back-reference loop `self.path.iter().enumerate().nth(1)` runs at
most once (only `i = 1`), adding the entry for `path[..1]` whose field
`path[1]` is the raw link object `{"#": path[..2].join("/")}`. -/
def createPutMsg (path : List String) (key : String) (v : GunValue) (t : ℚ)
    (msgId : String) : Json :=
  let fullPath := String.intercalate "/" path
  let mainPut : List (String × Json) :=
    objInsert [] fullPath (putEntry fullPath key (encodeGunValue v) t)
  let puts : List (String × Json) :=
    match path.get? 1 with
    | some nodeName =>
        let ancPath := String.intercalate "/" (path.take 1)
        let linked := String.intercalate "/" (path.take 2)
        objInsert mainPut ancPath
          (obj2 "_" (obj2 "#" (.str ancPath) ">" (.obj [(nodeName, .num t)]))
            nodeName (.obj [("#", .str linked)]))
    | none => mainPut
  obj2 "put" (.obj puts) "#" (.str msgId)

/-- The per-field loop body of `incoming_put`: read the HAM timestamp with
`as_f64().unwrap()` (panics on a non-number), `node.get(child_key)`, and if
the child's stored `updated_at` is strictly smaller, decode `entry[field]`
and `put_local` it (undecodable or missing values are skipped silently). -/
def processField (nid : Nat) (entry : Json) (kv : String × Json) (s : State) :
    Except Err Unit × State :=
  match kv.2.asNum with
  | none => (.error .notNum, s)
  | some t =>
    match getOp nid kv.1 s with
    | (.error e, s₁) => (.error e, s₁)
    | (.ok cid, s₁) =>
      match storeLookup s₁ cid with
      | none => (.error .storeMiss, s₁)
      | some child =>
        if child.updatedAt < t then
          match jOptGet entry kv.1 with
          | some jv =>
            match decodeGunValue jv with
            | some gv => (.ok (), putLocalOn cid gv t s₁)
            | none => (.ok (), s₁)
          | none => (.ok (), s₁)
        else (.ok (), s₁)

/-- The fields of one HAM state object, processed in map order; a panic
aborts the loop with the state reached so far. -/
def processFields (nid : Nat) (entry : Json) :
    List (String × Json) → State → Except Err Unit × State
  | [], s => (.ok (), s)
  | kv :: rest, s =>
    match processField nid entry kv s with
    | (.ok _, s₁) => processFields nid entry rest s₁
    | (.error e, s₁) => (.error e, s₁)

/-- One `(updated_key, update_data)` entry of `incoming_put`: traverse with
`self.get(updated_key)` (the whole path string as one key!), then step to
`updated_key.split("/").nth(1)` — only the second component — if present,
then handle `update_data["_"][">"]` when it is an object. -/
def processEntry (p : String) (data : Json) (s : State) : Except Err Unit × State :=
  match getOp 0 p s with
  | (.error e, s₁) => (.error e, s₁)
  | (.ok nid, s₁) =>
    match (splitSlash p).get? 1 with
    | some name =>
      match getOp nid name s₁ with
      | (.error e, s₂) => (.error e, s₂)
      | (.ok nid₂, s₂) =>
        match (jGet (jGet data "_") ">").asObj with
        | some times => processFields nid₂ data times s₂
        | none => (.ok (), s₂)
    | none =>
      match (jGet (jGet data "_") ">").asObj with
      | some times => processFields nid data times s₁
      | none => (.ok (), s₁)

/-- `fn incoming_put(&mut self, put: &serde_json::Map<..>)`: the entries in
map (sorted-key) order. -/
def incomingPut : List (String × Json) → State → Except Err Unit × State
  | [], s => (.ok (), s)
  | (p, d) :: rest, s =>
    match processEntry p d s with
    | (.ok _, s₁) => incomingPut rest s₁
    | (.error e, s₁) => (.error e, s₁)

/-- `fn incoming_get(&mut self, get: &serde_json::Map<..>)`: `"#"` is the
path, optional `"."` the field.  `split.nth(0)` then `split.nth(0)` on the
consumed iterator visit the first and second path components only, and the
traversal allocates missing vertices; the response (`send_get_response_if_have`)
is transport output with no graph effect. -/
def incomingGet (g : List (String × Json)) (s : State) : Except Err Unit × State :=
  match alookup g "#" with
  | some (.str path) =>
    (match alookup g "." with
     | some (.str key) =>
        let parts := splitSlash path
        match getOp 0 (parts.headD "") s with
        | (.error e, s₁) => (.error e, s₁)
        | (.ok nid, s₁) =>
          match parts.get? 1 with
          | some name =>
            match getOp nid name s₁ with
            | (.error e, s₂) => (.error e, s₂)
            | (.ok nid₂, s₂) =>
              match getOp nid₂ key s₂ with
              | (.error e, s₃) => (.error e, s₃)
              | (.ok _, s₃) => (.ok (), s₃)
          | none =>
            match getOp nid key s₁ with
            | (.error e, s₂) => (.error e, s₂)
            | (.ok _, s₂) => (.ok (), s₂)
     | some _ => (.ok (), s)
     | none =>
        match getOp 0 path s with
        | (.error e, s₁) => (.error e, s₁)
        | (.ok _, s₁) => (.ok (), s₁))
  | _ => (.ok (), s)

/-- One frame object: the `put` branch, then (if no panic) the `get` branch. -/
def incomingObj (o : List (String × Json)) (s : State) : Except Err Unit × State :=
  let afterPut :=
    match alookup o "put" with
    | some (.obj entries) => incomingPut entries s
    | _ => (.ok (), s)
  match afterPut with
  | (.ok _, s₁) =>
    (match alookup o "get" with
     | some (.obj g) => incomingGet g s₁
     | _ => (.ok (), s₁))
  | (.error e, s₁) => (.error e, s₁)

/-- One element of a top-level frame array (`incoming_message` with
`is_from_array = true`): nested arrays are rejected, objects are handled,
the rest ignored. -/
def incomingElem (j : Json) (s : State) : Except Err Unit × State :=
  match j with
  | .obj o => incomingObj o s
  | _ => (.ok (), s)

/-- The elements of a top-level frame array, in order; a panic stops the
loop. -/
def incomingList : List Json → State → Except Err Unit × State
  | [], s => (.ok (), s)
  | j :: rest, s =>
    match incomingElem j s with
    | (.ok _, s₁) => incomingList rest s₁
    | (.error e, s₁) => (.error e, s₁)

/-- `fn incoming_message(&mut self, msg, is_from_array: bool)` at the top
level (`is_from_array = false`): one level of arrays, then the object
handler. -/
def incomingMessage (j : Json) (s : State) : Except Err Unit × State :=
  match j with
  | .arr l => incomingList l s
  | .obj o => incomingObj o s
  | _ => (.ok (), s)

/-- The value stored at a vertex id (`none` also when the id is absent). -/
def valueOf (s : State) (i : Nat) : Option GunValue :=
  (handleLookup s i).bind (·.value)

/-- The `updated_at` stored at a vertex id. -/
def uatOf (s : State) (i : Nat) : Option ℚ :=
  (handleLookup s i).map (·.updatedAt)

/-- The `path` stored at a vertex id. -/
def pathOf (s : State) (i : Nat) : Option (List String) :=
  (handleLookup s i).map (·.path)

/-- The `key` stored at a vertex id. -/
def keyOf (s : State) (i : Nat) : Option String :=
  (handleLookup s i).map (·.key)

/-- The child id under `k` of the vertex `i`. -/
def childIdOf (s : State) (i : Nat) (k : String) : Option Nat :=
  (handleLookup s i).bind (fun n => alookup n.children k)

/-- The `parents` set of a vertex id (empty when absent). -/
def parentsOf (s : State) (i : Nat) : List (Nat × String) :=
  ((handleLookup s i).map (·.parents)).getD []

/-- The `children` map of a vertex id (empty when absent). -/
def childrenOf (s : State) (i : Nat) : List (String × Nat) :=
  ((handleLookup s i).map (·.children)).getD []

/-- A handle the public API can hold: the root, or a store-resident vertex. -/
def validHandle (s : State) (i : Nat) : Prop :=
  i = 0 ∨ (storeLookup s i).isSome

instance (s : State) (i : Nat) : Decidable (validHandle s i) := by
  unfold validHandle; infer_instance

/-- The store end of one child edge: the child id is a store resident whose
`parents` set contains the back-edge, and a child of the root (id 0) has an
empty `path`. -/
def BackEdge (s : State) (nid : Nat) (kc : String × Nat) : Prop :=
  match storeLookup s kc.2 with
  | some c => (nid, kc.1) ∈ c.parents ∧ (nid = 0 → c.path = [])
  | none => False

instance (s : State) (nid : Nat) (kc : String × Nat) : Decidable (BackEdge s nid kc) := by
  unfold BackEdge; split <;> infer_instance

/-- Structural well-formedness of one vertex: children keys are nonempty
(`new_child` asserts them so), child ids are allocated non-root ids whose
store record carries the back-edge in `parents`, and parent ids precede the
vertex's own id. -/
def NodeOk (s : State) (n : NodeRec) : Prop :=
  (∀ kc ∈ n.children, kc.1 ≠ "" ∧ kc.2 ≠ 0 ∧ kc.2 < s.nextId ∧ BackEdge s n.id kc) ∧
  (∀ pk ∈ n.parents, pk.1 < n.id)

instance (s : State) (n : NodeRec) : Decidable (NodeOk s n) := by
  unfold NodeOk; infer_instance

/-- Structural well-formedness of a state: the root is the fixed vertex 0
outside the store, store ids are positive and below the counter, and every
vertex is `NodeOk`. -/
def GraphInv (s : State) : Prop :=
  s.root.id = 0 ∧ s.root.parents = [] ∧ s.root.key = "" ∧ s.root.path = [] ∧
  1 ≤ s.nextId ∧ NodeOk s s.root ∧
  ∀ en ∈ s.store, en.2.id = en.1 ∧ en.1 ≠ 0 ∧ en.1 < s.nextId ∧ NodeOk s en.2

instance (s : State) : Decidable (GraphInv s) := by
  unfold GraphInv; infer_instance

/-- The spec's invariant 3: a vertex with `value = Some` has no children. -/
def ScalarLeaf (s : State) : Prop :=
  (s.root.value.isSome → s.root.children = []) ∧
  ∀ en ∈ s.store, en.2.value.isSome → en.2.children = []

instance (s : State) : Decidable (ScalarLeaf s) := by
  unfold ScalarLeaf; infer_instance

/-- The states reachable from `Node::new()` by the public operations —
`get`, `put` (with an arbitrary wall-clock reading), `on`, `map`, `off` on
any held handle — and by delivery of arbitrary JSON frames to
`incoming_message`.  The state component of a result is kept even when the
operation panics, because the shared store retains all mutations performed
before a panic. -/
inductive Reach : State → Prop where
  | init : Reach initState
  | get {s : State} (i : Nat) (k : String) :
      Reach s → validHandle s i → Reach (getOp i k s).2
  | put {s : State} (i : Nat) (v : GunValue) (t : ℚ) :
      Reach s → validHandle s i → Reach (putOp i v t s)
  | subOn {s : State} (i : Nat) : Reach s → validHandle s i → Reach (onOp i s)
  | subMap {s : State} (i : Nat) : Reach s → validHandle s i → Reach (mapOp i s)
  | subOff {s : State} (i sub : Nat) : Reach s → validHandle s i → Reach (offOp i sub s)
  | msg {s : State} (j : Json) : Reach s → Reach (incomingMessage j s).2

/-- The traversal a single-component `put`-frame entry performs before the
timestamp test: `self.get(path)` from the root, then `node.get(field)`. -/
def resolve2 (p k : String) (s : State) : Except Err Nat × State :=
  match getOp 0 p s with
  | (.ok nid, s₁) => getOp nid k s₁
  | (.error e, s₁) => (.error e, s₁)

/-- The record `new_child` allocates. -/
def freshChild (s : State) (i : Nat) (k : String) (self : NodeRec) : NodeRec :=
  { id := s.nextId, updatedAt := 0, key := k,
    path := self.path ++ (if self.key = "" then [] else [self.key]), value := none,
    children := [], parents := [(i, k)], onSubs := [], mapSubs := [] }

/-- The state after `new_child` allocates under vertex `i`. -/
def allocChild (s : State) (i : Nat) (k : String) (self : NodeRec) : State :=
  updNode { s with store := ninsert s.store s.nextId (freshChild s i k self),
                   nextId := s.nextId + 1 }
    i (fun n => { n with children := ainsert n.children k s.nextId })

/-- A state in which the single-component path `p` and field `k` resolve,
without allocation, to the child `c` through the interior vertex `nid`:
the shape a successful merge leaves behind.  (`cr` is `c`'s record.) -/
def ResolvedAt (s : State) (p k : String) (nid c : Nat) (cr : NodeRec) : Prop :=
  s.root.value = none ∧ alookup s.root.children p = some nid ∧ nid ≠ 0 ∧ c ≠ 0 ∧
  (∃ Pr, storeLookup s nid = some Pr ∧ Pr.value = none ∧
    alookup Pr.children k = some c) ∧
  storeLookup s c = some cr ∧ (nid, k) ∈ cr.parents ∧ (∀ pk ∈ cr.parents, pk.1 < c)

/-! ## Basic lemmas about the association-list maps -/

theorem alookup_ainsert_self {β : Type} (l : List (String × β)) (k : String) (v : β) :
    alookup (ainsert l k v) k = some v := by
  induction l with
  | nil => simp [ainsert, alookup]
  | cons hd tl ih =>
    obtain ⟨a, b⟩ := hd
    simp only [ainsert]
    split
    · simp [alookup]
    · next ha => simp [alookup, ha, ih]

theorem alookup_ainsert_ne {β : Type} (l : List (String × β)) (k k' : String) (v : β)
    (h : k' ≠ k) : alookup (ainsert l k v) k' = alookup l k' := by
  have h' : ¬(k = k') := fun hh => h hh.symm
  induction l with
  | nil => simp [ainsert, alookup, h']
  | cons hd tl ih =>
    obtain ⟨a, b⟩ := hd
    simp only [ainsert]
    split
    · next ha => subst ha; simp [alookup, h']
    · simp only [alookup, ih]

theorem mem_ainsert {β : Type} (x : String × β) (l : List (String × β)) (k : String) (v : β)
    (h : x ∈ ainsert l k v) : x = (k, v) ∨ x ∈ l := by
  induction l with
  | nil => simp [ainsert] at h; simp [h]
  | cons hd tl ih =>
    obtain ⟨a, b⟩ := hd
    simp only [ainsert] at h
    split at h
    · rcases List.mem_cons.mp h with h1 | h1
      · exact .inl h1
      · exact .inr (List.mem_cons_of_mem _ h1)
    · rcases List.mem_cons.mp h with h1 | h1
      · exact .inr (by simp [h1])
      · rcases ih h1 with h2 | h2
        · exact .inl h2
        · exact .inr (List.mem_cons_of_mem _ h2)

theorem nlookup_ninsert_self {β : Type} (l : List (Nat × β)) (k : Nat) (v : β) :
    nlookup (ninsert l k v) k = some v := by
  induction l with
  | nil => simp [ninsert, nlookup]
  | cons hd tl ih =>
    obtain ⟨a, b⟩ := hd
    simp only [ninsert]
    split
    · simp [nlookup]
    · next ha => simp [nlookup, ha, ih]

theorem nlookup_ninsert_ne {β : Type} (l : List (Nat × β)) (k k' : Nat) (v : β)
    (h : k' ≠ k) : nlookup (ninsert l k v) k' = nlookup l k' := by
  have h' : ¬(k = k') := fun hh => h hh.symm
  induction l with
  | nil => simp [ninsert, nlookup, h']
  | cons hd tl ih =>
    obtain ⟨a, b⟩ := hd
    simp only [ninsert]
    split
    · next ha => subst ha; simp [nlookup, h']
    · simp only [nlookup, ih]

theorem mem_ninsert {β : Type} (x : Nat × β) (l : List (Nat × β)) (k : Nat) (v : β)
    (h : x ∈ ninsert l k v) : x = (k, v) ∨ x ∈ l := by
  induction l with
  | nil => simp [ninsert] at h; simp [h]
  | cons hd tl ih =>
    obtain ⟨a, b⟩ := hd
    simp only [ninsert] at h
    split at h
    · rcases List.mem_cons.mp h with h1 | h1
      · exact .inl h1
      · exact .inr (List.mem_cons_of_mem _ h1)
    · rcases List.mem_cons.mp h with h1 | h1
      · exact .inr (by simp [h1])
      · rcases ih h1 with h2 | h2
        · exact .inl h2
        · exact .inr (List.mem_cons_of_mem _ h2)

theorem nlookup_mem {β : Type} {l : List (Nat × β)} {k : Nat} {v : β}
    (h : nlookup l k = some v) : (k, v) ∈ l := by
  induction l with
  | nil => simp [nlookup] at h
  | cons hd tl ih =>
    obtain ⟨a, b⟩ := hd
    simp only [nlookup] at h
    split at h
    · next ha => cases h; subst ha; simp
    · exact List.mem_cons_of_mem _ (ih h)

/-! ## Lemmas about state access and update -/

theorem updNode_nextId (s : State) (i : Nat) (f : NodeRec → NodeRec) :
    (updNode s i f).nextId = s.nextId := by
  unfold updNode
  split
  · rfl
  · split <;> rfl

theorem updNode_root_of_ne (s : State) (i : Nat) (f : NodeRec → NodeRec) (h : i ≠ 0) :
    (updNode s i f).root = s.root := by
  unfold updNode
  rw [if_neg h]
  split <;> rfl

theorem updNode_store_zero (s : State) (f : NodeRec → NodeRec) :
    (updNode s 0 f).store = s.store := by
  unfold updNode
  rw [if_pos rfl]

theorem storeLookup_updNode_ne (s : State) (i j : Nat) (f : NodeRec → NodeRec)
    (h : j ≠ i) : storeLookup (updNode s i f) j = storeLookup s j := by
  unfold updNode storeLookup
  split
  · rfl
  · split
    · next r _ => exact nlookup_ninsert_ne s.store i j (f r) h
    · rfl

theorem storeLookup_updNode_self (s : State) (i : Nat) (f : NodeRec → NodeRec)
    (r : NodeRec) (h0 : i ≠ 0) (h : storeLookup s i = some r) :
    storeLookup (updNode s i f) i = some (f r) := by
  unfold updNode
  rw [if_neg h0, h]
  unfold storeLookup
  exact nlookup_ninsert_self s.store i (f r)

theorem handleLookup_updNode_self (s : State) (i : Nat) (f : NodeRec → NodeRec)
    (r : NodeRec) (h : handleLookup s i = some r) :
    handleLookup (updNode s i f) i = some (f r) := by
  by_cases h0 : i = 0
  · subst h0
    unfold handleLookup at h ⊢
    rw [if_pos rfl] at h ⊢
    cases h
    unfold updNode
    rw [if_pos rfl]
  · unfold handleLookup at h ⊢
    rw [if_neg h0] at h ⊢
    exact storeLookup_updNode_self s i f r h0 h

theorem handleLookup_updNode_ne (s : State) (i j : Nat) (f : NodeRec → NodeRec)
    (h : j ≠ i) : handleLookup (updNode s i f) j = handleLookup s j := by
  unfold handleLookup
  by_cases hj : j = 0
  · subst hj
    rw [if_pos rfl, if_pos rfl, updNode_root_of_ne s i f (fun hh => h hh.symm)]
  · rw [if_neg hj, if_neg hj]
    exact storeLookup_updNode_ne s i j f h

/-- Under `GraphInv` the store never contains the root id. -/
theorem storeLookup_zero_of_inv {s : State} (h : GraphInv s) : storeLookup s 0 = none := by
  rcases h with ⟨_, _, _, _, _, _, hstore⟩
  cases hl : storeLookup s 0 with
  | none => rfl
  | some r =>
    have := hstore _ (nlookup_mem hl)
    exact absurd rfl this.2.1

/-- Unfolding one step of the parent loop. -/
theorem clearParents_cons (pk : Nat × String) (rest : List (Nat × String)) (s : State) :
    clearParents (pk :: rest) s =
      clearParents rest
        (match nlookup s.store pk.1 with
         | some r => { s with store := ninsert s.store pk.1 { r with value := none } }
         | none => s) := rfl

/-- `clearParents` never touches the root. -/
theorem clearParents_root (ps : List (Nat × String)) (s : State) :
    (clearParents ps s).root = s.root := by
  induction ps generalizing s with
  | nil => rfl
  | cons pk rest ih =>
    rw [clearParents_cons]
    split <;> exact ih _

/-- `clearParents` never touches the counter. -/
theorem clearParents_nextId (ps : List (Nat × String)) (s : State) :
    (clearParents ps s).nextId = s.nextId := by
  induction ps generalizing s with
  | nil => rfl
  | cons pk rest ih =>
    rw [clearParents_cons]
    split <;> exact ih _

/-- Every store record after `clearParents` comes from a record of the input
state, either unchanged or with its `value` cleared. -/
theorem clearParents_lookup (ps : List (Nat × String)) (s : State) (j : Nat) :
    storeLookup (clearParents ps s) j = storeLookup s j ∨
    ∃ r, storeLookup s j = some r ∧
      storeLookup (clearParents ps s) j = some { r with value := none } := by
  induction ps generalizing s with
  | nil => exact .inl rfl
  | cons pk rest ih =>
    rw [clearParents_cons]
    split
    · next r hr =>
      set s₁ : State := { s with store := ninsert s.store pk.1 { r with value := none } } with hs₁
      have hstep : storeLookup s₁ j = storeLookup s j ∨
          ∃ r', storeLookup s j = some r' ∧ storeLookup s₁ j = some { r' with value := none } := by
        by_cases hj : j = pk.1
        · refine .inr ⟨r, ?_, ?_⟩
          · rw [hj]; exact hr
          · show nlookup s₁.store j = _
            rw [hj]
            exact nlookup_ninsert_self _ _ _
        · exact .inl (nlookup_ninsert_ne s.store pk.1 j _ hj)
      rcases ih s₁ with h1 | ⟨r', hr', hr''⟩
      · rcases hstep with h2 | ⟨r', hr', hr''⟩
        · exact .inl (h1.trans h2)
        · exact .inr ⟨r', hr', h1.trans hr''⟩
      · rcases hstep with h2 | ⟨r'', hr2, hr2'⟩
        · rw [h2] at hr'
          exact .inr ⟨r', hr', hr''⟩
        · rw [hr2'] at hr'
          cases hr'
          exact .inr ⟨r'', hr2, hr''⟩
    · exact ih s

/-- A store id outside the parent list is untouched by `clearParents`. -/
theorem clearParents_lookup_not_mem (ps : List (Nat × String)) (s : State) (j : Nat)
    (h : ∀ pk ∈ ps, pk.1 ≠ j) :
    storeLookup (clearParents ps s) j = storeLookup s j := by
  induction ps generalizing s with
  | nil => rfl
  | cons pk rest ih =>
    rw [clearParents_cons]
    have hne : pk.1 ≠ j := h pk (by simp)
    have hrest : ∀ pk' ∈ rest, pk'.1 ≠ j := fun pk' hm => h pk' (List.mem_cons_of_mem _ hm)
    split
    · next r hr =>
      rw [ih _ hrest]
      exact nlookup_ninsert_ne s.store pk.1 j _ (fun hh => hne hh.symm)
    · exact ih s hrest

/-- A store-resident parent in the list has `value = none` afterwards. -/
theorem clearParents_clears (ps : List (Nat × String)) (s : State) (pk : Nat × String)
    (hm : pk ∈ ps) (r : NodeRec) (hr : storeLookup s pk.1 = some r) :
    ∃ r', storeLookup (clearParents ps s) pk.1 = some r' ∧ r'.value = none := by
  induction ps generalizing s r with
  | nil => cases hm
  | cons hd rest ih =>
    rw [clearParents_cons]
    rcases List.mem_cons.mp hm with he | hm'
    · subst he
      rw [show nlookup s.store pk.1 = some r from hr]
      set s₁ : State := { s with store := ninsert s.store pk.1 { r with value := none } } with hs₁
      have h₁ : storeLookup s₁ pk.1 = some { r with value := none } :=
        nlookup_ninsert_self _ _ _
      rcases clearParents_lookup rest s₁ pk.1 with h2 | ⟨r', hr', hr''⟩
      · exact ⟨_, h2.trans h₁, rfl⟩
      · rw [h₁] at hr'
        cases hr'
        exact ⟨_, hr'', rfl⟩
    · split
      · next r0 hr0 =>
        set s₁ : State := { s with store := ninsert s.store hd.1 { r0 with value := none } } with hs₁
        by_cases hj : pk.1 = hd.1
        · have h₁ : storeLookup s₁ pk.1 = some { r0 with value := none } := by
            show nlookup s₁.store pk.1 = _
            rw [hj]
            exact nlookup_ninsert_self _ _ _
          exact ih s₁ hm' _ h₁
        · have h₁ : storeLookup s₁ pk.1 = some r := by
            show nlookup s₁.store pk.1 = some r
            show nlookup (ninsert s.store hd.1 _) pk.1 = some r
            rw [nlookup_ninsert_ne _ _ _ _ hj]
            exact hr
          exact ih s₁ hm' _ h₁
      · exact ih s hm' _ hr

/-! ## Preservation of the structural invariant -/

theorem store_facts {s : State} (h : GraphInv s) {j : Nat} {r : NodeRec}
    (hj : storeLookup s j = some r) : r.id = j ∧ j ≠ 0 ∧ j < s.nextId ∧ NodeOk s r :=
  h.2.2.2.2.2.2 _ (nlookup_mem hj)

theorem handleLookup_zero (s : State) : handleLookup s 0 = some s.root := by
  unfold handleLookup
  rw [if_pos rfl]

theorem handleLookup_of_ne (s : State) (i : Nat) (h : i ≠ 0) :
    handleLookup s i = storeLookup s i := by
  unfold handleLookup
  rw [if_neg h]

theorem handleLookup_lt {s : State} (h : GraphInv s) {i : Nat} {r : NodeRec}
    (hi : handleLookup s i = some r) : i < s.nextId := by
  by_cases h0 : i = 0
  · subst h0
    exact h.2.2.2.2.1
  · rw [handleLookup_of_ne s i h0] at hi
    exact (store_facts h hi).2.2.1

/-- Unfolding `BackEdge` when the child is present. -/
theorem backEdge_iff {s : State} {nid : Nat} {kc : String × Nat} {c : NodeRec}
    (h : storeLookup s kc.2 = some c) :
    BackEdge s nid kc ↔ ((nid, kc.1) ∈ c.parents ∧ (nid = 0 → c.path = [])) := by
  unfold BackEdge
  rw [h]

/-- `BackEdge` forces the child to be store-resident. -/
theorem backEdge_some {s : State} {nid : Nat} {kc : String × Nat}
    (h : BackEdge s nid kc) :
    ∃ c, storeLookup s kc.2 = some c ∧ (nid, kc.1) ∈ c.parents ∧ (nid = 0 → c.path = []) := by
  unfold BackEdge at h
  cases hcl : storeLookup s kc.2 with
  | none => rw [hcl] at h; exact h.elim
  | some c =>
    rw [hcl] at h
    exact ⟨c, rfl, h⟩

/-- Transport of `NodeOk` to a state whose counter did not shrink and whose
store preserves the `parents` and `path` of every previously allocated id. -/
theorem nodeOk_mono {s s' : State} {n : NodeRec} (hn : NodeOk s n)
    (hnext : s.nextId ≤ s'.nextId)
    (hlook : ∀ j r, storeLookup s j = some r → j < s.nextId →
      ∃ r', storeLookup s' j = some r' ∧ r'.parents = r.parents ∧ r'.path = r.path) :
    NodeOk s' n := by
  obtain ⟨hch, hpar⟩ := hn
  refine ⟨?_, hpar⟩
  intro kc hkc
  obtain ⟨hk, hc0, hlt, hbe⟩ := hch kc hkc
  refine ⟨hk, hc0, lt_of_lt_of_le hlt hnext, ?_⟩
  obtain ⟨c, hcl, hmem, hpath⟩ := backEdge_some hbe
  obtain ⟨r', hr', hpar', hpath'⟩ := hlook kc.2 c hcl hlt
  rw [backEdge_iff hr', hpar', hpath']
  exact ⟨hmem, hpath⟩

theorem graphInv_newChild (s : State) (i : Nat) (k : String) (h : GraphInv s) :
    GraphInv (newChild i k s).2 := by
  unfold newChild
  split
  · exact h
  · split
    · exact h
    · next hkne0 _ self hself =>
      obtain ⟨hrid, hrpar, hrkey, hrpath, hnext1, hrok, hstore⟩ := h
      have hinv : GraphInv s := ⟨hrid, hrpar, hrkey, hrpath, hnext1, hrok, hstore⟩
      have hilt : i < s.nextId := handleLookup_lt hinv hself
      have hine : i ≠ s.nextId := Nat.ne_of_lt hilt
      have hkne : k ≠ "" := hkne0
      set cid := s.nextId with hcid
      set C : NodeRec :=
        { id := cid, updatedAt := 0, key := k,
          path := self.path ++ (if self.key = "" then [] else [self.key]), value := none,
          children := [], parents := [(i, k)], onSubs := [], mapSubs := [] } with hC
      set s₁ : State := { s with store := ninsert s.store cid C, nextId := s.nextId + 1 } with hs₁
      set s₂ := updNode s₁ i (fun n => { n with children := ainsert n.children k cid }) with hs₂
      show GraphInv s₂
      have hs₂next : s₂.nextId = s.nextId + 1 := by
        rw [hs₂, updNode_nextId]
      have hlookC : storeLookup s₂ cid = some C := by
        have h1 : storeLookup s₁ cid = some C := nlookup_ninsert_self _ _ _
        rw [hs₂, storeLookup_updNode_ne _ _ _ _ (fun hh => hine hh.symm)]
        exact h1
      have hselfStore : i ≠ 0 → storeLookup s i = some self := by
        intro h0
        rw [← handleLookup_of_ne s i h0]
        exact hself
      have hselfRoot : i = 0 → self = s.root := by
        intro h0
        subst h0
        rw [handleLookup_zero] at hself
        cases hself
        rfl
      have hlookI : i ≠ 0 → storeLookup s₂ i =
          some { self with children := ainsert self.children k cid } := by
        intro h0
        have h1 : storeLookup s₁ i = some self := by
          show nlookup (ninsert s.store cid C) i = some self
          rw [nlookup_ninsert_ne _ _ _ _ hine]
          exact hselfStore h0
        rw [hs₂]
        exact storeLookup_updNode_self s₁ i _ self h0 h1
      have hlook : ∀ j r, storeLookup s j = some r → j < s.nextId →
          ∃ r', storeLookup s₂ j = some r' ∧ r'.parents = r.parents ∧ r'.path = r.path := by
        intro j r hj hjlt
        have hjne : j ≠ cid := Nat.ne_of_lt hjlt
        by_cases hji : j = i
        · subst hji
          have h0 : j ≠ 0 := by
            intro hh
            rw [hh, storeLookup_zero_of_inv hinv] at hj
            cases hj
          have hj' := hselfStore h0
          rw [hj'] at hj
          cases hj
          exact ⟨_, hlookI h0, rfl, rfl⟩
        · have h1 : storeLookup s₁ j = some r := by
            show nlookup (ninsert s.store cid C) j = some r
            rw [nlookup_ninsert_ne _ _ _ _ hjne]
            exact hj
          refine ⟨r, ?_, rfl, rfl⟩
          rw [hs₂, storeLookup_updNode_ne _ _ _ _ hji]
          exact h1
      have hmono : s.nextId ≤ s₂.nextId := by rw [hs₂next]; exact Nat.le_succ _
      have hroot₂ : s₂.root = if i = 0
          then { s.root with children := ainsert s.root.children k cid } else s.root := by
        by_cases h0 : i = 0
        · rw [if_pos h0, hs₂]
          subst h0
          unfold updNode
          rw [if_pos rfl]
        · rw [if_neg h0, hs₂, updNode_root_of_ne _ _ _ h0]
      have hInsOk : ∀ n : NodeRec, NodeOk s n → n.id = i →
          NodeOk s₂ { n with children := ainsert n.children k cid } := by
        intro n hn hni
        obtain ⟨hch, hpar⟩ := hn
        refine ⟨?_, hpar⟩
        intro kc hkc
        rcases mem_ainsert kc n.children k cid hkc with he | hm
        · subst he
          refine ⟨hkne, by omega, by omega, ?_⟩
          show BackEdge s₂ n.id (k, cid)
          rw [backEdge_iff hlookC]
          constructor
          · show (n.id, k) ∈ C.parents
            rw [hC, hni]
            simp
          · intro hn0
            show C.path = []
            have h0 : i = 0 := by rw [← hni]; exact hn0
            have hsr := hselfRoot h0
            rw [hC, hsr, hrpath, hrkey]
            simp
        · obtain ⟨hk1, hk2, hk3, hbe⟩ := hch kc hm
          refine ⟨hk1, hk2, by omega, ?_⟩
          obtain ⟨c, hcl, hmem, hpath⟩ := backEdge_some hbe
          obtain ⟨r', hr', hpar', hpath'⟩ := hlook kc.2 c hcl hk3
          show BackEdge s₂ _ kc
          rw [backEdge_iff hr', hpar', hpath']
          exact ⟨hmem, hpath⟩
      refine ⟨?_, ?_, ?_, ?_, ?_, ?_, ?_⟩
      · rw [hroot₂]; split <;> simp [hrid]
      · rw [hroot₂]; split <;> simp [hrpar]
      · rw [hroot₂]; split <;> simp [hrkey]
      · rw [hroot₂]; split <;> simp [hrpath]
      · omega
      · rw [hroot₂]
        split
        · next h0 =>
          exact hInsOk s.root hrok (by rw [hrid, h0])
        · exact nodeOk_mono hrok hmono hlook
      · intro en hen
        have hsplit : en = (cid, C) ∨
            (i ≠ 0 ∧ en = (i, { self with children := ainsert self.children k cid })) ∨
            en ∈ s.store := by
          by_cases h0 : i = 0
          · have hst : s₂.store = ninsert s.store cid C := by
              rw [hs₂, h0, updNode_store_zero]
            rw [hst] at hen
            rcases mem_ninsert en _ _ _ hen with he | hm
            · exact .inl he
            · exact .inr (.inr hm)
          · have hupd : s₂.store = ninsert s₁.store i
                { self with children := ainsert self.children k cid } := by
              rw [hs₂]
              unfold updNode
              rw [if_neg h0]
              have h1 : storeLookup s₁ i = some self := by
                show nlookup (ninsert s.store cid C) i = some self
                rw [nlookup_ninsert_ne _ _ _ _ hine]
                exact hselfStore h0
              rw [h1]
            rw [hupd] at hen
            rcases mem_ninsert en _ _ _ hen with he | hm
            · exact .inr (.inl ⟨h0, he⟩)
            · rcases mem_ninsert en _ _ _ hm with he' | hm'
              · exact .inl he'
              · exact .inr (.inr hm')
        rcases hsplit with he | ⟨h0, he⟩ | hm
        · subst he
          refine ⟨rfl, by omega, by omega, ?_, ?_⟩
          · intro kc hkc
            rw [hC] at hkc
            cases hkc
          · intro pk hpk
            rw [hC] at hpk
            have he' := List.mem_singleton.mp hpk
            rw [he']
            show i < cid
            omega
        · subst he
          obtain ⟨hid, hne0, hlt, hok⟩ := store_facts hinv (hselfStore h0)
          exact ⟨hid, hne0, by omega, hInsOk self hok hid⟩
        · obtain ⟨hid, hne0, hlt, hok⟩ := hstore en hm
          exact ⟨hid, hne0, by omega, nodeOk_mono hok hmono hlook⟩

/-- Every store entry after `clearParents` is an input entry, possibly with
its `value` cleared. -/
theorem clearParents_mem (ps : List (Nat × String)) (s : State) (en : Nat × NodeRec)
    (h : en ∈ (clearParents ps s).store) :
    ∃ r, (en.1, r) ∈ s.store ∧ (en.2 = r ∨ en.2 = { r with value := none }) := by
  induction ps generalizing s with
  | nil =>
    refine ⟨en.2, ?_, .inl rfl⟩
    rw [Prod.mk.eta]
    exact h
  | cons pk rest ih =>
    rw [clearParents_cons] at h
    split at h
    · next r0 hr0 =>
      obtain ⟨r, hmem, hor⟩ := ih _ h
      rcases mem_ninsert _ _ _ _ hmem with he | hm
      · have h1 : en.1 = pk.1 := congrArg Prod.fst he
        have h2 : r = { r0 with value := none } := congrArg Prod.snd he
        refine ⟨r0, ?_, .inr ?_⟩
        · rw [h1]
          exact nlookup_mem hr0
        · rcases hor with h3 | h3 <;> rw [h3, h2]
      · exact ⟨r, hm, hor⟩
    · exact ih _ h

theorem graphInv_putLocalOn (s : State) (i : Nat) (v : GunValue) (t : ℚ)
    (h : GraphInv s) : GraphInv (putLocalOn i v t s) := by
  unfold putLocalOn
  split
  · exact h
  · next self hself =>
    obtain ⟨hrid, hrpar, hrkey, hrpath, hnext1, hrok, hstore⟩ := h
    have hinv : GraphInv s := ⟨hrid, hrpar, hrkey, hrpath, hnext1, hrok, hstore⟩
    set f : NodeRec → NodeRec :=
      fun n => { n with updatedAt := t, value := some v, children := [] } with hf
    set s₁ := updNode s i f with hs₁
    set s₂ := clearParents self.parents s₁ with hs₂
    show GraphInv s₂
    have hroot₁ : s₂.root = s₁.root := clearParents_root _ _
    have hnext₂ : s₂.nextId = s.nextId := by
      rw [hs₂, clearParents_nextId, hs₁, updNode_nextId]
    have hlook : ∀ j r, storeLookup s j = some r → j < s.nextId →
        ∃ r', storeLookup s₂ j = some r' ∧ r'.parents = r.parents ∧ r'.path = r.path := by
      intro j r hj _
      have h1 : ∃ r₁, storeLookup s₁ j = some r₁ ∧ r₁.parents = r.parents ∧
          r₁.path = r.path := by
        by_cases hji : j = i
        · subst hji
          have h0 : j ≠ 0 := by
            intro hh
            rw [hh, storeLookup_zero_of_inv hinv] at hj
            cases hj
          refine ⟨f r, ?_, rfl, rfl⟩
          rw [hs₁]
          exact storeLookup_updNode_self s j f r h0 hj
        · refine ⟨r, ?_, rfl, rfl⟩
          rw [hs₁, storeLookup_updNode_ne _ _ _ _ hji]
          exact hj
      obtain ⟨r₁, hr₁, hp₁, hq₁⟩ := h1
      rcases clearParents_lookup self.parents s₁ j with h2 | ⟨r₀, h2, h3⟩
      · exact ⟨r₁, by rw [hs₂, h2]; exact hr₁, hp₁, hq₁⟩
      · rw [hr₁] at h2
        cases h2
        exact ⟨_, h3, hp₁, hq₁⟩
    have hmono : s.nextId ≤ s₂.nextId := by rw [hnext₂]
    refine ⟨?_, ?_, ?_, ?_, ?_, ?_, ?_⟩
    · rw [hroot₁, hs₁]
      unfold updNode
      split
      · simp [hf, hrid]
      · split <;> simp [hrid]
    · rw [hroot₁, hs₁]
      unfold updNode
      split
      · simp [hf, hrpar]
      · split <;> simp [hrpar]
    · rw [hroot₁, hs₁]
      unfold updNode
      split
      · simp [hf, hrkey]
      · split <;> simp [hrkey]
    · rw [hroot₁, hs₁]
      unfold updNode
      split
      · simp [hf, hrpath]
      · split <;> simp [hrpath]
    · omega
    · -- NodeOk of the new root
      rw [hroot₁, hs₁]
      unfold updNode
      split
      · -- i = 0: the root was rewritten, children now empty
        refine ⟨?_, ?_⟩
        · intro kc hkc
          cases hkc
        · intro pk hpk
          show pk.1 < (f s.root).id
          have : pk ∈ s.root.parents := hpk
          rw [hrpar] at this
          cases this
      · split
        · exact nodeOk_mono hrok hmono hlook
        · exact nodeOk_mono hrok hmono hlook
    · intro en hen
      obtain ⟨r₁, hmem₁, hor₁⟩ := clearParents_mem self.parents s₁ en hen
      -- r₁ is a record of s₁'s store: either the rewritten i or an old record
      have hmem₀ : ∃ r₀, (en.1, r₀) ∈ s.store ∧ (r₁ = r₀ ∨ (en.1 = i ∧ r₁ = f r₀)) := by
        rw [hs₁] at hmem₁
        unfold updNode at hmem₁
        by_cases h0 : i = 0
        · rw [if_pos h0] at hmem₁
          exact ⟨r₁, hmem₁, .inl rfl⟩
        · rw [if_neg h0] at hmem₁
          cases hsl : storeLookup s i with
          | none =>
            rw [hsl] at hmem₁
            exact ⟨r₁, hmem₁, .inl rfl⟩
          | some ri =>
            rw [hsl] at hmem₁
            rcases mem_ninsert _ _ _ _ hmem₁ with he | hm
            · have h1 : en.1 = i := congrArg Prod.fst he
              have h2 : r₁ = f ri := congrArg Prod.snd he
              refine ⟨ri, ?_, .inr ⟨h1, h2⟩⟩
              rw [h1]
              exact nlookup_mem hsl
            · exact ⟨r₁, hm, .inl rfl⟩
      obtain ⟨r₀, hmem₀, hor₀⟩ := hmem₀
      obtain ⟨hid₀, hne₀, hlt₀, hok₀⟩ := hstore (en.1, r₀) hmem₀
      -- en.2 has r₀'s id, parents; its children are r₀'s or []
      have hfields : en.2.id = r₀.id ∧ en.2.parents = r₀.parents ∧
          (en.2.children = r₀.children ∨ en.2.children = []) := by
        rcases hor₁ with h1 | h1 <;> rcases hor₀ with h2 | h2 <;>
          simp [h1, h2, hf]
      obtain ⟨hfid, hfpar, hfch⟩ := hfields
      refine ⟨by rw [hfid]; exact hid₀, hne₀, by omega, ?_, ?_⟩
      · intro kc hkc
        rcases hfch with hch | hch
        · rw [hch] at hkc
          obtain ⟨hk1, hk2, hk3, hbe⟩ := hok₀.1 kc hkc
          refine ⟨hk1, hk2, by omega, ?_⟩
          obtain ⟨c, hcl, hmemc, hpathc⟩ := backEdge_some hbe
          obtain ⟨r', hr', hpar', hpath'⟩ := hlook kc.2 c hcl hk3
          rw [backEdge_iff hr', hpar', hpath']
          constructor
          · rw [hfid]
            exact hmemc
          · intro hh
            rw [hfid, hid₀] at hh
            exact absurd hh hne₀
        · rw [hch] at hkc
          cases hkc
      · intro pk hpk
        rw [hfpar] at hpk
        have := hok₀.2 pk hpk
        rw [hfid]
        exact this

theorem graphInv_getChildId (s : State) (i : Nat) (k : String) (h : GraphInv s) :
    GraphInv (getChildId i k s).2 := by
  unfold getChildId
  split
  · exact h
  · split
    · exact graphInv_newChild s i k h
    · split
      · exact h
      · exact graphInv_newChild s i k h

theorem graphInv_getOp (s : State) (i : Nat) (k : String) (h : GraphInv s) :
    GraphInv (getOp i k s).2 := by
  have h1 := graphInv_getChildId s i k h
  unfold getOp
  cases hgc : getChildId i k s with
  | mk res s₁ =>
    rw [hgc] at h1
    cases res with
    | ok cid =>
      simp only []
      split <;> exact h1
    | error e => exact h1

/-- `GraphInv` is untouched by rewrites that keep `id`, `children`,
`parents`, `path` and `key`, combined with a counter bump. -/
theorem graphInv_updNode_pres (s : State) (i : Nat) (m : Nat) (f : NodeRec → NodeRec)
    (hid : ∀ r, (f r).id = r.id) (hch : ∀ r, (f r).children = r.children)
    (hpar : ∀ r, (f r).parents = r.parents) (hpath : ∀ r, (f r).path = r.path)
    (hkey : ∀ r, (f r).key = r.key)
    (h : GraphInv s) : GraphInv (updNode { s with nextId := s.nextId + m } i f) := by
  obtain ⟨hrid, hrpar, hrkey, hrpath, hnext1, hrok, hstore⟩ := h
  have hinv : GraphInv s := ⟨hrid, hrpar, hrkey, hrpath, hnext1, hrok, hstore⟩
  set s₀ : State := { s with nextId := s.nextId + m } with hs₀
  set s₂ := updNode s₀ i f with hs₂
  have hnext₂ : s₂.nextId = s.nextId + m := by rw [hs₂, updNode_nextId]
  have hroot₂ : s₂.root = if i = 0 then f s.root else s.root := by
    by_cases h0 : i = 0
    · rw [if_pos h0, hs₂]
      subst h0
      unfold updNode
      rw [if_pos rfl]
    · rw [if_neg h0, hs₂, updNode_root_of_ne _ _ _ h0]
  have hlook : ∀ j r, storeLookup s j = some r → j < s.nextId →
      ∃ r', storeLookup s₂ j = some r' ∧ r'.parents = r.parents ∧ r'.path = r.path := by
    intro j r hj _
    by_cases hji : j = i
    · subst hji
      have h0 : j ≠ 0 := by
        intro hh
        rw [hh, storeLookup_zero_of_inv hinv] at hj
        cases hj
      refine ⟨f r, ?_, hpar r, hpath r⟩
      rw [hs₂]
      exact storeLookup_updNode_self s₀ j f r h0 hj
    · refine ⟨r, ?_, rfl, rfl⟩
      rw [hs₂, storeLookup_updNode_ne _ _ _ _ hji]
      exact hj
  have hmono : s.nextId ≤ s₂.nextId := by omega
  have hNodeOk : ∀ n, NodeOk s n → NodeOk s₂ (f n) := by
    intro n hn
    obtain ⟨hc, hp⟩ := hn
    constructor
    · intro kc hkc
      rw [hch] at hkc
      obtain ⟨hk1, hk2, hk3, hbe⟩ := hc kc hkc
      refine ⟨hk1, hk2, by omega, ?_⟩
      obtain ⟨c, hcl, hmemc, hpathc⟩ := backEdge_some hbe
      obtain ⟨r', hr', hpar', hpath'⟩ := hlook kc.2 c hcl hk3
      rw [backEdge_iff hr', hpar', hpath', hid]
      exact ⟨hmemc, hpathc⟩
    · intro pk hpk
      rw [hpar] at hpk
      rw [hid]
      exact hp pk hpk
  refine ⟨?_, ?_, ?_, ?_, by omega, ?_, ?_⟩
  · rw [hroot₂]; split
    · rw [hid, hrid]
    · exact hrid
  · rw [hroot₂]; split
    · rw [hpar, hrpar]
    · exact hrpar
  · rw [hroot₂]; split
    · rw [hkey, hrkey]
    · exact hrkey
  · rw [hroot₂]; split
    · rw [hpath, hrpath]
    · exact hrpath
  · rw [hroot₂]; split
    · exact hNodeOk s.root hrok
    · exact nodeOk_mono hrok hmono hlook
  · intro en hen
    have hmem₀ : ∃ r₀, (en.1, r₀) ∈ s.store ∧ (en.2 = r₀ ∨ en.2 = f r₀) := by
      rw [hs₂] at hen
      unfold updNode at hen
      by_cases h0 : i = 0
      · rw [if_pos h0] at hen
        exact ⟨en.2, by rw [Prod.mk.eta]; exact hen, .inl rfl⟩
      · rw [if_neg h0] at hen
        cases hsl : storeLookup s₀ i with
        | none =>
          rw [hsl] at hen
          exact ⟨en.2, by rw [Prod.mk.eta]; exact hen, .inl rfl⟩
        | some ri =>
          rw [hsl] at hen
          rcases mem_ninsert _ _ _ _ hen with he | hm
          · have h1 : en.1 = i := congrArg Prod.fst he
            have h2 : en.2 = f ri := congrArg Prod.snd he
            refine ⟨ri, ?_, .inr h2⟩
            rw [h1]
            exact nlookup_mem hsl
          · exact ⟨en.2, by rw [Prod.mk.eta]; exact hm, .inl rfl⟩
    obtain ⟨r₀, hm₀, hor₀⟩ := hmem₀
    obtain ⟨hid₀, hne₀, hlt₀, hok₀⟩ := hstore (en.1, r₀) hm₀
    rcases hor₀ with he | he
    · rw [he]
      exact ⟨hid₀, hne₀, by omega, nodeOk_mono hok₀ hmono hlook⟩
    · rw [he]
      refine ⟨by rw [hid]; exact hid₀, hne₀, by omega, hNodeOk r₀ hok₀⟩

theorem graphInv_onOp (s : State) (i : Nat) (h : GraphInv s) : GraphInv (onOp i s) := by
  unfold onOp
  split
  · exact h
  · exact graphInv_updNode_pres s i 1 _ (fun _ => rfl) (fun _ => rfl) (fun _ => rfl)
      (fun _ => rfl) (fun _ => rfl) h

theorem graphInv_mapOp (s : State) (i : Nat) (h : GraphInv s) : GraphInv (mapOp i s) := by
  unfold mapOp
  split
  · exact h
  · exact graphInv_updNode_pres s i 1 _ (fun _ => rfl) (fun _ => rfl) (fun _ => rfl)
      (fun _ => rfl) (fun _ => rfl) h

theorem graphInv_offOp (s : State) (i sub : Nat) (h : GraphInv s) :
    GraphInv (offOp i sub s) := by
  have h1 := graphInv_updNode_pres s i 0
    (fun n => { n with onSubs := n.onSubs.filter (· ≠ sub),
                       mapSubs := n.mapSubs.filter (· ≠ sub) })
    (fun _ => rfl) (fun _ => rfl) (fun _ => rfl) (fun _ => rfl) (fun _ => rfl) h
  unfold offOp
  have hs : ({ s with nextId := s.nextId + 0 } : State) = s := by
    show State.mk s.root s.store (s.nextId + 0) = s
    rw [Nat.add_zero]
  rw [hs] at h1
  exact h1

theorem graphInv_processField (nid : Nat) (entry : Json) (kv : String × Json) (s : State)
    (h : GraphInv s) : GraphInv (processField nid entry kv s).2 := by
  unfold processField
  split
  · exact h
  · cases hg : getOp nid kv.1 s with
    | mk res s₁ =>
      have h₁ : GraphInv s₁ := by
        have := graphInv_getOp s nid kv.1 h
        rw [hg] at this
        exact this
      cases res with
      | error e => exact h₁
      | ok cid =>
        simp only []
        split
        · exact h₁
        · split
          · split
            · split
              · exact graphInv_putLocalOn s₁ cid _ _ h₁
              · exact h₁
            · exact h₁
          · exact h₁

theorem graphInv_processFields (nid : Nat) (entry : Json) (l : List (String × Json))
    (s : State) (h : GraphInv s) : GraphInv (processFields nid entry l s).2 := by
  induction l generalizing s with
  | nil => exact h
  | cons kv rest ih =>
    unfold processFields
    cases hp : processField nid entry kv s with
    | mk res s₁ =>
      have h₁ : GraphInv s₁ := by
        have := graphInv_processField nid entry kv s h
        rw [hp] at this
        exact this
      cases res with
      | ok u => exact ih s₁ h₁
      | error e => exact h₁

theorem graphInv_processEntry (p : String) (d : Json) (s : State) (h : GraphInv s) :
    GraphInv (processEntry p d s).2 := by
  unfold processEntry
  split
  · next e s₁ hg =>
    have := graphInv_getOp s 0 p h
    rw [hg] at this
    exact this
  · next nid s₁ hg =>
    have h₁ : GraphInv s₁ := by
      have := graphInv_getOp s 0 p h
      rw [hg] at this
      exact this
    split
    · next name _ =>
      split
      · next e s₂ hg₂ =>
        have := graphInv_getOp s₁ nid name h₁
        rw [hg₂] at this
        exact this
      · next nid₂ s₂ hg₂ =>
        have h₂ : GraphInv s₂ := by
          have := graphInv_getOp s₁ nid name h₁
          rw [hg₂] at this
          exact this
        split
        · exact graphInv_processFields _ _ _ _ h₂
        · exact h₂
    · split
      · exact graphInv_processFields _ _ _ _ h₁
      · exact h₁

theorem graphInv_incomingPut (l : List (String × Json)) (s : State) (h : GraphInv s) :
    GraphInv (incomingPut l s).2 := by
  induction l generalizing s with
  | nil => exact h
  | cons pd rest ih =>
    obtain ⟨p, d⟩ := pd
    unfold incomingPut
    cases hp : processEntry p d s with
    | mk res s₁ =>
      have h₁ : GraphInv s₁ := by
        have := graphInv_processEntry p d s h
        rw [hp] at this
        exact this
      cases res with
      | ok u => exact ih s₁ h₁
      | error e => exact h₁

theorem graphInv_incomingGet (g : List (String × Json)) (s : State) (h : GraphInv s) :
    GraphInv (incomingGet g s).2 := by
  unfold incomingGet
  split
  · next path _ =>
    split
    · next key _ =>
      dsimp only
      split
      · next e s₁ hg =>
        have := graphInv_getOp s 0 ((splitSlash path).headD "") h
        rw [hg] at this
        exact this
      · next nid s₁ hg =>
        have h₁ : GraphInv s₁ := by
          have := graphInv_getOp s 0 ((splitSlash path).headD "") h
          rw [hg] at this
          exact this
        split
        · next name _ =>
          split
          · next e s₂ hg₂ =>
            have := graphInv_getOp s₁ nid name h₁
            rw [hg₂] at this
            exact this
          · next nid₂ s₂ hg₂ =>
            have h₂ : GraphInv s₂ := by
              have := graphInv_getOp s₁ nid name h₁
              rw [hg₂] at this
              exact this
            split
            · next e s₃ hg₃ =>
              have := graphInv_getOp s₂ nid₂ key h₂
              rw [hg₃] at this
              exact this
            · next u s₃ hg₃ =>
              have := graphInv_getOp s₂ nid₂ key h₂
              rw [hg₃] at this
              exact this
        · split
          · next e s₂ hg₂ =>
            have := graphInv_getOp s₁ nid key h₁
            rw [hg₂] at this
            exact this
          · next u s₂ hg₂ =>
            have := graphInv_getOp s₁ nid key h₁
            rw [hg₂] at this
            exact this
    · exact h
    · split
      · next e s₁ hg =>
        have := graphInv_getOp s 0 path h
        rw [hg] at this
        exact this
      · next u s₁ hg =>
        have := graphInv_getOp s 0 path h
        rw [hg] at this
        exact this
  · exact h

theorem graphInv_incomingObj (o : List (String × Json)) (s : State) (h : GraphInv s) :
    GraphInv (incomingObj o s).2 := by
  unfold incomingObj
  have hput : ∀ s' : State, GraphInv s' → GraphInv
      (match alookup o "put" with
       | some (.obj entries) => incomingPut entries s'
       | _ => (.ok (), s')).2 := by
    intro s' h'
    split
    · exact graphInv_incomingPut _ _ h'
    · exact h'
  cases hp : (match alookup o "put" with
       | some (.obj entries) => incomingPut entries s
       | _ => ((.ok ()) , s)) with
  | mk res s₁ =>
    have h₁ : GraphInv s₁ := by
      have := hput s h
      rw [hp] at this
      exact this
    cases res with
    | ok u =>
      simp only []
      split
      · exact graphInv_incomingGet _ _ h₁
      · exact h₁
    | error e => exact h₁

theorem graphInv_incomingElem (j : Json) (s : State) (h : GraphInv s) :
    GraphInv (incomingElem j s).2 := by
  unfold incomingElem
  split
  · exact graphInv_incomingObj _ _ h
  · exact h

theorem graphInv_incomingList (l : List Json) (s : State) (h : GraphInv s) :
    GraphInv (incomingList l s).2 := by
  induction l generalizing s with
  | nil => exact h
  | cons j rest ih =>
    unfold incomingList
    cases hp : incomingElem j s with
    | mk res s₁ =>
      have h₁ : GraphInv s₁ := by
        have := graphInv_incomingElem j s h
        rw [hp] at this
        exact this
      cases res with
      | ok u => exact ih s₁ h₁
      | error e => exact h₁

theorem graphInv_incomingMessage (j : Json) (s : State) (h : GraphInv s) :
    GraphInv (incomingMessage j s).2 := by
  unfold incomingMessage
  split
  · exact graphInv_incomingList _ _ h
  · exact graphInv_incomingObj _ _ h
  · exact h

/-- The structural invariant holds in every reachable state, including the
residues of aborted handler runs. -/
theorem graphInv_reach {s : State} (h : Reach s) : GraphInv s := by
  induction h with
  | init => decide
  | get i k _ _ ih => exact graphInv_getOp _ i k ih
  | put i v t _ _ ih => exact graphInv_putLocalOn _ i v t ih
  | subOn i _ _ ih => exact graphInv_onOp _ i ih
  | subMap i _ _ ih => exact graphInv_mapOp _ i ih
  | subOff i sub _ _ ih => exact graphInv_offOp _ i sub ih
  | msg j _ ih => exact graphInv_incomingMessage j _ ih

/-! ## The serde encoding round-trip -/

mutual
theorem decode_encode : ∀ v : GunValue, decodeGunValue (encodeGunValue v) = some v
  | .Null => rfl
  | .Bit b => by simp [encodeGunValue, decodeGunValue]
  | .Number q => by simp [encodeGunValue, decodeGunValue]
  | .Text s => by simp [encodeGunValue, decodeGunValue]
  | .Link id => by
      simp [encodeGunValue, decodeGunValue, Rat.den_natCast, Rat.num_natCast]
  | .Children m => by
      simp [encodeGunValue, decodeGunValue, decode_encode_entries m]

theorem decode_encode_entries : ∀ l : List (String × GunValue),
    decodeEntries (encodeEntries l) = some l
  | [] => rfl
  | (k, v) :: t => by
      simp [encodeEntries, decodeEntries, decode_encode v, decode_encode_entries t]
end

/-! ## Shape of the frames `create_put_msg` builds -/

theorem jGet_of_alookup {l : List (String × Json)} {k : String} {v : Json}
    (h : alookup l k = some v) : jGet (.obj l) k = v := by
  show (match alookup l k with | some v => v | none => Json.null) = v
  rw [h]

theorem alookup_obj2_fst (k1 k2 : String) (v1 v2 : Json) (h : k1 ≠ k2) :
    alookup (objInsert (objInsert [] k1 v1) k2 v2) k1 = some v1 := by
  show alookup (objInsert [(k1, v1)] k2 v2) k1 = some v1
  unfold objInsert
  split
  · simp [alookup, h.symm]
  · split
    · next he => exact absurd he.symm h
    · simp [alookup]

theorem alookup_obj2_snd (k1 k2 : String) (v1 v2 : Json) (h : k1 ≠ k2) :
    alookup (objInsert (objInsert [] k1 v1) k2 v2) k2 = some v2 := by
  show alookup (objInsert [(k1, v1)] k2 v2) k2 = some v2
  unfold objInsert
  split
  · simp [alookup]
  · split
    · next he => exact absurd he.symm h
    · simp [alookup, h, objInsert]

/-- Reading the metadata record `"_"` of a put entry (for a field key other
than `"_"`). -/
theorem putEntry_meta (fullPath key : String) (valJson : Json) (t : ℚ) (h : key ≠ "_") :
    jGet (putEntry fullPath key valJson t) "_" =
      obj2 "#" (.str fullPath) ">" (.obj [(key, .num t)]) := by
  unfold putEntry obj2
  exact jGet_of_alookup (alookup_obj2_fst _ _ _ _ (fun hh => h hh.symm))

/-- Reading the value field of a put entry (for a field key other than `"_"`). -/
theorem putEntry_val (fullPath key : String) (valJson : Json) (t : ℚ) (h : key ≠ "_") :
    jOptGet (putEntry fullPath key valJson t) key = some valJson := by
  unfold putEntry obj2 jOptGet
  exact alookup_obj2_snd _ _ _ _ (fun hh => h hh.symm)

/-- The HAM state of a put entry. -/
theorem putEntry_times (fullPath key : String) (valJson : Json) (t : ℚ) (h : key ≠ "_") :
    (jGet (jGet (putEntry fullPath key valJson t) "_") ">").asObj = some [(key, .num t)] := by
  rw [putEntry_meta _ _ _ _ h]
  rfl

/-- `create_put_msg` for a vertex whose `path` has exactly one component:
a single-entry put object keyed by that component. -/
theorem createPutMsg_single (p key : String) (v : GunValue) (t : ℚ) (mid : String) :
    createPutMsg [p] key v t mid =
      .obj [("#", .str mid),
            ("put", .obj [(p, putEntry p key (encodeGunValue v) t)])] := by
  unfold createPutMsg
  rfl

/-- `create_put_msg` for a direct child of the root (`path = []`): the put
object is keyed by the empty string. -/
theorem createPutMsg_empty (key : String) (v : GunValue) (t : ℚ) (mid : String) :
    createPutMsg [] key v t mid =
      .obj [("#", .str mid),
            ("put", .obj [("", putEntry "" key (encodeGunValue v) t)])] := by
  unfold createPutMsg
  rfl

/-! ## Computation lemmas for the traversal operations -/

theorem alookup_none_of_keys {β : Type} (l : List (String × β)) (k : String)
    (h : ∀ kc ∈ l, kc.1 ≠ k) : alookup l k = none := by
  induction l with
  | nil => rfl
  | cons hd tl ih =>
    obtain ⟨a, b⟩ := hd
    have ha : a ≠ k := h (a, b) (by simp)
    simp only [alookup, if_neg ha]
    exact ih (fun kc hm => h kc (List.mem_cons_of_mem _ hm))

theorem newChild_eq {s : State} {i : Nat} {k : String} {self : NodeRec}
    (hk : k ≠ "") (hself : handleLookup s i = some self) :
    newChild i k s = (.ok s.nextId, allocChild s i k self) := by
  unfold newChild
  rw [if_neg hk, hself]
  rfl

theorem allocChild_nextId (s : State) (i : Nat) (k : String) (self : NodeRec) :
    (allocChild s i k self).nextId = s.nextId + 1 := by
  unfold allocChild
  rw [updNode_nextId]

theorem allocChild_fresh (s : State) (i : Nat) (k : String) (self : NodeRec)
    (hine : i ≠ s.nextId) :
    storeLookup (allocChild s i k self) s.nextId = some (freshChild s i k self) := by
  unfold allocChild
  rw [storeLookup_updNode_ne _ _ _ _ (fun hh => hine hh.symm)]
  exact nlookup_ninsert_self _ _ _

theorem allocChild_parent {s : State} {i : Nat} {self : NodeRec} (k : String)
    (hself : handleLookup s i = some self) (hine : i ≠ s.nextId) :
    handleLookup (allocChild s i k self) i =
      some { self with children := ainsert self.children k s.nextId } := by
  unfold allocChild
  apply handleLookup_updNode_self
  by_cases h0 : i = 0
  · subst h0
    rw [handleLookup_zero] at hself ⊢
    cases hself
    rfl
  · rw [handleLookup_of_ne _ _ h0] at hself ⊢
    show nlookup (ninsert s.store s.nextId (freshChild s i k self)) i = some self
    rw [nlookup_ninsert_ne _ _ _ _ hine]
    exact hself

theorem allocChild_root (s : State) (i : Nat) (k : String) (self : NodeRec)
    (h0 : i ≠ 0) : (allocChild s i k self).root = s.root := by
  unfold allocChild
  rw [updNode_root_of_ne _ _ _ h0]

theorem allocChild_root_zero (s : State) (k : String) (self : NodeRec) :
    (allocChild s 0 k self).root =
      { s.root with children := ainsert s.root.children k s.nextId } := by
  unfold allocChild updNode
  rw [if_pos rfl]

theorem allocChild_lookup_other (s : State) (i : Nat) (k : String) (self : NodeRec)
    (j : Nat) (hj1 : j ≠ i) (hj2 : j ≠ s.nextId) :
    storeLookup (allocChild s i k self) j = storeLookup s j := by
  unfold allocChild
  rw [storeLookup_updNode_ne _ _ _ _ hj1]
  exact nlookup_ninsert_ne _ _ _ _ hj2

theorem getChildId_hit {s : State} {i : Nat} {k : String} {r : NodeRec} {c : Nat}
    (hself : handleLookup s i = some r) (hv : r.value = none)
    (hc : alookup r.children k = some c) :
    getChildId i k s = (.ok c, s) := by
  unfold getChildId
  rw [hself]
  show (if r.value.isSome then _ else _) = _
  rw [hv]
  show (match alookup r.children k with
        | some cid => ((Except.ok cid : Except Err Nat), s)
        | none => newChild i k s) = _
  rw [hc]

theorem getChildId_scalar {s : State} {i : Nat} {k : String} {r : NodeRec}
    (hself : handleLookup s i = some r) (hv : r.value.isSome) :
    getChildId i k s = newChild i k s := by
  unfold getChildId
  rw [hself]
  show (if r.value.isSome then _ else _) = _
  rw [hv]
  rfl

theorem getChildId_miss {s : State} {i : Nat} {k : String} {r : NodeRec}
    (hself : handleLookup s i = some r) (hv : r.value = none)
    (hc : alookup r.children k = none) :
    getChildId i k s = newChild i k s := by
  unfold getChildId
  rw [hself]
  show (if r.value.isSome then _ else _) = _
  rw [hv]
  show (match alookup r.children k with
        | some cid => ((Except.ok cid : Except Err Nat), s)
        | none => newChild i k s) = _
  rw [hc]

theorem getOp_eq_hit {s : State} {i : Nat} {k : String} {r : NodeRec} {c : Nat}
    {cr : NodeRec} (hself : handleLookup s i = some r) (hv : r.value = none)
    (hc : alookup r.children k = some c) (hcr : storeLookup s c = some cr) :
    getOp i k s = (.ok c, s) := by
  unfold getOp
  rw [getChildId_hit hself hv hc]
  show (match storeLookup s c with
        | some _ => ((Except.ok c : Except Err Nat), s)
        | none => (Except.error Err.storeMiss, s)) = _
  rw [hcr]

theorem getOp_eq_alloc_scalar {s : State} {i : Nat} {k : String} {r : NodeRec}
    (hself : handleLookup s i = some r) (hv : r.value.isSome) (hk : k ≠ "")
    (hine : i ≠ s.nextId) :
    getOp i k s = (.ok s.nextId, allocChild s i k r) := by
  unfold getOp
  rw [getChildId_scalar hself hv, newChild_eq hk hself]
  show (match storeLookup (allocChild s i k r) s.nextId with
        | some _ => ((Except.ok s.nextId : Except Err Nat), allocChild s i k r)
        | none => (Except.error Err.storeMiss, allocChild s i k r)) = _
  rw [allocChild_fresh s i k r hine]

theorem getOp_eq_alloc_miss {s : State} {i : Nat} {k : String} {r : NodeRec}
    (hself : handleLookup s i = some r) (hv : r.value = none)
    (hc : alookup r.children k = none) (hk : k ≠ "") (hine : i ≠ s.nextId) :
    getOp i k s = (.ok s.nextId, allocChild s i k r) := by
  unfold getOp
  rw [getChildId_miss hself hv hc, newChild_eq hk hself]
  show (match storeLookup (allocChild s i k r) s.nextId with
        | some _ => ((Except.ok s.nextId : Except Err Nat), allocChild s i k r)
        | none => (Except.error Err.storeMiss, allocChild s i k r)) = _
  rw [allocChild_fresh s i k r hine]

/-- `get("")` panics on the `new_child` assertion whenever it reaches
`new_child` — which it always does under the invariant, because no child is
stored under the empty key. -/
theorem getOp_empty_key {s : State} {i : Nat} {r : NodeRec}
    (hself : handleLookup s i = some r)
    (hc : alookup r.children "" = none) :
    getOp i "" s = (.error .keyLen, s) := by
  have hnc : newChild i "" s = (.error .keyLen, s) := by
    unfold newChild
    rw [if_pos rfl]
  unfold getOp
  cases hv : r.value.isSome with
  | true =>
    rw [getChildId_scalar hself hv, hnc]
  | false =>
    have hv' : r.value = none := by
      cases hvv : r.value
      · rfl
      · rw [hvv] at hv; cases hv
    rw [getChildId_miss hself hv' hc, hnc]

/-! ## Computation lemmas for `put_local` -/

theorem putLocalOn_eq {s : State} {i : Nat} {self : NodeRec} (v : GunValue) (t : ℚ)
    (hself : handleLookup s i = some self) :
    putLocalOn i v t s = clearParents self.parents
      (updNode s i (fun n => { n with updatedAt := t, value := some v, children := [] })) := by
  unfold putLocalOn
  rw [hself]

theorem putLocal_root {s : State} {c : Nat} (v : GunValue) (t : ℚ) (hc0 : c ≠ 0) :
    (putLocalOn c v t s).root = s.root := by
  unfold putLocalOn
  split
  · rfl
  · rw [clearParents_root, updNode_root_of_ne _ _ _ hc0]

theorem putLocal_nextId (s : State) (c : Nat) (v : GunValue) (t : ℚ) :
    (putLocalOn c v t s).nextId = s.nextId := by
  unfold putLocalOn
  split
  · rfl
  · rw [clearParents_nextId, updNode_nextId]

/-- The written vertex after `put_local` (when it is not its own parent):
fresh timestamp and value, empty children, untouched `parents`. -/
theorem putLocal_target {s : State} {c : Nat} {cr : NodeRec} (v : GunValue) (t : ℚ)
    (hc0 : c ≠ 0) (hcr : storeLookup s c = some cr)
    (hpar : ∀ pk ∈ cr.parents, pk.1 ≠ c) :
    storeLookup (putLocalOn c v t s) c =
      some { cr with updatedAt := t, value := some v, children := [] } := by
  have hh : handleLookup s c = some cr := by
    rw [handleLookup_of_ne s c hc0]
    exact hcr
  rw [putLocalOn_eq v t hh]
  rw [clearParents_lookup_not_mem _ _ _ hpar]
  exact storeLookup_updNode_self s c _ cr hc0 hcr

/-- A parent of the written vertex after `put_local`: value cleared,
children untouched. -/
theorem putLocal_parent {s : State} {c : Nat} {cr : NodeRec} (v : GunValue) (t : ℚ)
    (hc0 : c ≠ 0) (hcr : storeLookup s c = some cr)
    {nid : Nat} {k : String} (hmem : (nid, k) ∈ cr.parents) (hnc : nid ≠ c)
    {Pr : NodeRec} (hP : storeLookup s nid = some Pr) :
    ∃ Pr', storeLookup (putLocalOn c v t s) nid = some Pr' ∧ Pr'.value = none ∧
      Pr'.children = Pr.children := by
  have hh : handleLookup s c = some cr := by
    rw [handleLookup_of_ne s c hc0]
    exact hcr
  rw [putLocalOn_eq v t hh]
  set s₁ := updNode s c (fun n => { n with updatedAt := t, value := some v, children := [] })
    with hs₁
  have hP₁ : storeLookup s₁ nid = some Pr := by
    rw [hs₁, storeLookup_updNode_ne _ _ _ _ hnc]
    exact hP
  obtain ⟨r', hr', hv'⟩ := clearParents_clears cr.parents s₁ (nid, k) hmem Pr hP₁
  rcases clearParents_lookup cr.parents s₁ nid with h1 | ⟨r₀, h2, h3⟩
  · rw [h1, hP₁] at hr'
    cases hr'
    exact ⟨Pr, by rw [h1]; exact hP₁, hv', rfl⟩
  · rw [hP₁] at h2
    cases h2
    exact ⟨_, h3, rfl, rfl⟩

/-- Any other vertex after `put_local`: children, parents and timestamp are
untouched; the value is untouched or cleared. -/
theorem putLocal_other {s : State} {c : Nat} (v : GunValue) (t : ℚ) {j : Nat}
    (hjc : j ≠ c) {r : NodeRec} (hr : storeLookup s j = some r) :
    ∃ r', storeLookup (putLocalOn c v t s) j = some r' ∧ r'.children = r.children ∧
      r'.parents = r.parents ∧ r'.updatedAt = r.updatedAt ∧ r'.path = r.path ∧
      (r'.value = r.value ∨ r'.value = none) := by
  unfold putLocalOn
  split
  · exact ⟨r, hr, rfl, rfl, rfl, rfl, .inl rfl⟩
  · next self hself =>
    set s₁ := updNode s c (fun n => { n with updatedAt := t, value := some v, children := [] })
      with hs₁
    have hr₁ : storeLookup s₁ j = some r := by
      rw [hs₁, storeLookup_updNode_ne _ _ _ _ hjc]
      exact hr
    rcases clearParents_lookup self.parents s₁ j with h1 | ⟨r₀, h2, h3⟩
    · rw [h1]
      exact ⟨r, hr₁, rfl, rfl, rfl, rfl, .inl rfl⟩
    · rw [hr₁] at h2
      cases h2
      exact ⟨_, h3, rfl, rfl, rfl, rfl, .inr rfl⟩

/-! ## Resolution of a single-component path -/

theorem resolve2_of_resolvedAt {s : State} {p k : String} {nid c : Nat} {cr : NodeRec}
    (h : ResolvedAt s p k nid c cr) : resolve2 p k s = (.ok c, s) := by
  obtain ⟨hrv, hrc, hn0, hc0, ⟨Pr, hPr, hPv, hPc⟩, hcr, hmem, hbnd⟩ := h
  have h1 : getOp 0 p s = (.ok nid, s) :=
    getOp_eq_hit (handleLookup_zero s) hrv hrc hPr
  have h2 : getOp nid k s = (.ok c, s) := by
    refine getOp_eq_hit ?_ hPv hPc hcr
    rw [handleLookup_of_ne s nid hn0]
    exact hPr
  unfold resolve2
  rw [h1]
  exact h2

/-- After an accepted write to the resolved child, the path resolves to the
same child without allocation, and the child carries the written value. -/
theorem resolvedAt_after_put {s : State} {p k : String} {nid c : Nat} {cr : NodeRec}
    (h : ResolvedAt s p k nid c cr) (v : GunValue) (t : ℚ) :
    ResolvedAt (putLocalOn c v t s) p k nid c
      { cr with updatedAt := t, value := some v, children := [] } := by
  obtain ⟨hrv, hrc, hn0, hc0, ⟨Pr, hPr, hPv, hPc⟩, hcr, hmem, hbnd⟩ := h
  have hroot : (putLocalOn c v t s).root = s.root := putLocal_root v t hc0
  have hnc : nid ≠ c := Nat.ne_of_lt (hbnd (nid, k) hmem)
  obtain ⟨Pr', hPr', hPv', hPc'⟩ := putLocal_parent v t hc0 hcr hmem hnc hPr
  refine ⟨by rw [hroot]; exact hrv, by rw [hroot]; exact hrc, hn0, hc0,
    ⟨Pr', hPr', hPv', by rw [hPc']; exact hPc⟩, ?_, ?_, ?_⟩
  · exact putLocal_target v t hc0 hcr (fun pk hpk => Nat.ne_of_lt (hbnd pk hpk))
  · exact hmem
  · exact hbnd

theorem alookup_mem {β : Type} {l : List (String × β)} {k : String} {v : β}
    (h : alookup l k = some v) : (k, v) ∈ l := by
  induction l with
  | nil => simp [alookup] at h
  | cons hd tl ih =>
    obtain ⟨a, b⟩ := hd
    simp only [alookup] at h
    split at h
    · next ha => cases h; subst ha; simp
    · exact List.mem_cons_of_mem _ (ih h)

/-- Resolving a nonempty single-component path under the invariant, with a
scalar-free root, always succeeds: it yields the resolved child, its record,
and either a no-allocation resolution (`ResolvedAt`) or a freshly allocated
child with `updated_at = 0`. -/
theorem resolve2_spec {s : State} (p k : String) (hinv : GraphInv s)
    (hroot : s.root.value = none) (hp : p ≠ "") (hk : k ≠ "") :
    ∃ nid c s₂ cr, resolve2 p k s = (.ok c, s₂) ∧ GraphInv s₂ ∧
      s₂.root.value = none ∧ alookup s₂.root.children p = some nid ∧
      nid ≠ 0 ∧ c ≠ 0 ∧
      (∃ Pr, storeLookup s₂ nid = some Pr ∧ alookup Pr.children k = some c) ∧
      storeLookup s₂ c = some cr ∧ (nid, k) ∈ cr.parents ∧
      (∀ pk ∈ cr.parents, pk.1 < c) ∧
      ((s₂ = s ∧ ResolvedAt s p k nid c cr) ∨ (cr.updatedAt = 0 ∧ cr.value = none)) := by
  have hnext1 : 1 ≤ s.nextId := hinv.2.2.2.2.1
  have h0ne : (0 : Nat) ≠ s.nextId := by omega
  cases hA : alookup s.root.children p with
  | none =>
    -- the path vertex is freshly allocated under the root, then the field
    -- vertex under it
    have hg1 : getOp 0 p s = (.ok s.nextId, allocChild s 0 p s.root) :=
      getOp_eq_alloc_miss (handleLookup_zero s) hroot hA hp h0ne
    set nid := s.nextId with hnid
    set sB := allocChild s 0 p s.root with hsB
    have hinvB : GraphInv sB := by
      have := graphInv_getOp s 0 p hinv
      rw [hg1] at this
      exact this
    have hBn : sB.nextId = s.nextId + 1 := allocChild_nextId _ _ _ _
    have hBroot : sB.root = { s.root with children := ainsert s.root.children p nid } :=
      allocChild_root_zero _ _ _
    have hBfresh : storeLookup sB nid = some (freshChild s 0 p s.root) :=
      allocChild_fresh s 0 p s.root h0ne
    have hn0 : nid ≠ 0 := by omega
    have hfreshHandle : handleLookup sB nid = some (freshChild s 0 p s.root) := by
      rw [handleLookup_of_ne _ _ hn0]
      exact hBfresh
    have hnneB : nid ≠ sB.nextId := by omega
    have hg2 : getOp nid k sB =
        (.ok sB.nextId, allocChild sB nid k (freshChild s 0 p s.root)) :=
      getOp_eq_alloc_miss hfreshHandle rfl rfl hk hnneB
    set c := sB.nextId with hc
    set s₂ := allocChild sB nid k (freshChild s 0 p s.root) with hs₂
    have hinv₂ : GraphInv s₂ := by
      have := graphInv_getOp sB nid k hinvB
      rw [hg2] at this
      exact this
    have h₂root : s₂.root = sB.root := allocChild_root _ _ _ _ hn0
    have h₂P : handleLookup s₂ nid =
        some { freshChild s 0 p s.root with
               children := ainsert (freshChild s 0 p s.root).children k c } :=
      allocChild_parent k hfreshHandle hnneB
    have h₂c : storeLookup s₂ c = some (freshChild sB nid k (freshChild s 0 p s.root)) :=
      allocChild_fresh sB nid k _ hnneB
    refine ⟨nid, c, s₂, freshChild sB nid k (freshChild s 0 p s.root), ?_, hinv₂,
      ?_, ?_, hn0, by omega, ?_, h₂c, ?_, ?_, .inr ⟨rfl, rfl⟩⟩
    · unfold resolve2
      rw [hg1]
      exact hg2
    · rw [h₂root, hBroot]
      exact hroot
    · rw [h₂root, hBroot]
      exact alookup_ainsert_self _ _ _
    · refine ⟨{ freshChild s 0 p s.root with
          children := ainsert (freshChild s 0 p s.root).children k c }, ?_, ?_⟩
      · rw [← handleLookup_of_ne s₂ nid hn0]
        exact h₂P
      · exact alookup_ainsert_self _ _ _
    · show (nid, k) ∈ [(nid, k)]
      simp
    · intro pk hpk
      have he : pk = (nid, k) := List.mem_singleton.mp hpk
      rw [he]
      show nid < c
      omega
  | some P =>
    -- the path vertex exists under the root
    obtain ⟨_, hP0, hPlt, hbeP⟩ := hinv.2.2.2.2.2.1.1 (p, P) (alookup_mem hA)
    obtain ⟨Prec, hPrec, _, _⟩ := backEdge_some hbeP
    have hPhandle : handleLookup s P = some Prec := by
      rw [handleLookup_of_ne s P hP0]
      exact hPrec
    have hPne : P ≠ s.nextId := Nat.ne_of_lt hPlt
    have hg1 : getOp 0 p s = (.ok P, s) :=
      getOp_eq_hit (handleLookup_zero s) hroot hA hPrec
    -- shared argument for the two branches that allocate a fresh child
    have hAllocCase :
        getOp P k s = (.ok s.nextId, allocChild s P k Prec) →
        ∃ nid c s₂ cr, resolve2 p k s = (.ok c, s₂) ∧ GraphInv s₂ ∧
          s₂.root.value = none ∧ alookup s₂.root.children p = some nid ∧
          nid ≠ 0 ∧ c ≠ 0 ∧
          (∃ Pr, storeLookup s₂ nid = some Pr ∧ alookup Pr.children k = some c) ∧
          storeLookup s₂ c = some cr ∧ (nid, k) ∈ cr.parents ∧
          (∀ pk ∈ cr.parents, pk.1 < c) ∧
          ((s₂ = s ∧ ResolvedAt s p k nid c cr) ∨
            (cr.updatedAt = 0 ∧ cr.value = none)) := by
      intro hg2
      set c := s.nextId with hcdef
      set s₂ := allocChild s P k Prec with hs₂
      have hinv₂ : GraphInv s₂ := by
        have h1 := graphInv_getOp s 0 p hinv
        rw [hg1] at h1
        have := graphInv_getOp s P k h1
        rw [hg2] at this
        exact this
      have h₂root : s₂.root = s.root := allocChild_root _ _ _ _ hP0
      have h₂P : handleLookup s₂ P =
          some { Prec with children := ainsert Prec.children k c } :=
        allocChild_parent k hPhandle hPne
      have h₂c : storeLookup s₂ c = some (freshChild s P k Prec) :=
        allocChild_fresh s P k Prec hPne
      refine ⟨P, c, s₂, freshChild s P k Prec, ?_, hinv₂, ?_, ?_, hP0, by omega,
        ?_, h₂c, ?_, ?_, .inr ⟨rfl, rfl⟩⟩
      · unfold resolve2
        rw [hg1]
        exact hg2
      · rw [h₂root]
        exact hroot
      · rw [h₂root]
        exact hA
      · refine ⟨{ Prec with children := ainsert Prec.children k c }, ?_, ?_⟩
        · rw [← handleLookup_of_ne s₂ P hP0]
          exact h₂P
        · exact alookup_ainsert_self _ _ _
      · show (P, k) ∈ [(P, k)]
        simp
      · intro pk hpk
        have he : pk = (P, k) := List.mem_singleton.mp hpk
        rw [he]
        show P < c
        omega
    cases hPv : Prec.value with
    | some w =>
      exact hAllocCase (getOp_eq_alloc_scalar hPhandle (by rw [hPv]; rfl) hk hPne)
    | none =>
      cases hC : alookup Prec.children k with
      | none =>
        exact hAllocCase (getOp_eq_alloc_miss hPhandle hPv hC hk hPne)
      | some C =>
        -- full hit: nothing is allocated
        obtain ⟨hPid, _, _, hPok⟩ := store_facts hinv hPrec
        obtain ⟨_, hC0, hClt, hbeC⟩ := hPok.1 (k, C) (alookup_mem hC)
        obtain ⟨Cr, hCr, hCmem, _⟩ := backEdge_some hbeC
        obtain ⟨hCid, _, _, hCok⟩ := store_facts hinv hCr
        have hg2 : getOp P k s = (.ok C, s) :=
          getOp_eq_hit hPhandle hPv hC hCr
        have hbnd : ∀ pk ∈ Cr.parents, pk.1 < C := by
          intro pk hpk
          have hlt := hCok.2 pk hpk
          rw [hCid] at hlt
          exact hlt
        have hCmem' : (P, k) ∈ Cr.parents := by
          have hP' : Prec.id = P := hPid
          rw [← hP']
          exact hCmem
        refine ⟨P, C, s, Cr, ?_, hinv, hroot, hA, hP0, hC0, ⟨Prec, hPrec, hC⟩,
          hCr, hCmem', hbnd, .inl ⟨rfl, ?_⟩⟩
        · unfold resolve2
          rw [hg1]
          exact hg2
        · exact ⟨hroot, hA, hP0, hC0, ⟨Prec, hPrec, hPv, hC⟩, hCr, hCmem', hbnd⟩

/-! ## Delivery of a canonical single-field put frame -/

theorem incomingObj_put_only (o : List (String × Json)) (s : State)
    (entries : List (String × Json)) (h1 : alookup o "put" = some (.obj entries))
    (h2 : alookup o "get" = none) :
    incomingObj o s = incomingPut entries s := by
  unfold incomingObj
  rw [h1]
  show (match incomingPut entries s with
        | (.ok _, s₁) =>
            (match alookup o "get" with
             | some (.obj g) => incomingGet g s₁
             | _ => ((Except.ok () : Except Err Unit), s₁))
        | (.error e, s₁) => (.error e, s₁)) = incomingPut entries s
  rw [h2]
  cases hip : incomingPut entries s with
  | mk res s₁ =>
    cases res with
    | ok u => cases u; rfl
    | error e => rfl

theorem processField_canonical {s₁ s₂ : State} {nid c : Nat} {p k : String} {cr : NodeRec}
    (v : GunValue) (t : ℚ) (hk2 : k ≠ "_")
    (hg2 : getOp nid k s₁ = (.ok c, s₂)) (hcr : storeLookup s₂ c = some cr) :
    processField nid (putEntry p k (encodeGunValue v) t) (k, .num t) s₁ =
      (.ok (), if cr.updatedAt < t then putLocalOn c v t s₂ else s₂) := by
  unfold processField
  show (match (Json.num t).asNum with
        | none => ((Except.error Err.notNum : Except Err Unit), s₁)
        | some t' =>
          match getOp nid k s₁ with
          | (.error e, s') => (.error e, s')
          | (.ok cid, s') =>
            match storeLookup s' cid with
            | none => (.error .storeMiss, s')
            | some child =>
              if child.updatedAt < t' then
                match jOptGet (putEntry p k (encodeGunValue v) t) k with
                | some jv =>
                  match decodeGunValue jv with
                  | some gv => (.ok (), putLocalOn cid gv t' s')
                  | none => (.ok (), s')
                | none => (.ok (), s')
              else (.ok (), s')) = _
  show (match getOp nid k s₁ with
        | (.error e, s') => ((Except.error e : Except Err Unit), s')
        | (.ok cid, s') =>
          match storeLookup s' cid with
          | none => (.error .storeMiss, s')
          | some child =>
            if child.updatedAt < t then
              match jOptGet (putEntry p k (encodeGunValue v) t) k with
              | some jv =>
                match decodeGunValue jv with
                | some gv => (.ok (), putLocalOn cid gv t s')
                | none => (.ok (), s')
              | none => (.ok (), s')
            else (.ok (), s')) = _
  rw [hg2]
  show (match storeLookup s₂ c with
        | none => ((Except.error Err.storeMiss : Except Err Unit), s₂)
        | some child =>
          if child.updatedAt < t then
            match jOptGet (putEntry p k (encodeGunValue v) t) k with
            | some jv =>
              match decodeGunValue jv with
              | some gv => (.ok (), putLocalOn c gv t s₂)
              | none => (.ok (), s₂)
            | none => (.ok (), s₂)
          else (.ok (), s₂)) = _
  rw [hcr]
  show (if cr.updatedAt < t then
          match jOptGet (putEntry p k (encodeGunValue v) t) k with
          | some jv =>
            match decodeGunValue jv with
            | some gv => ((Except.ok () : Except Err Unit), putLocalOn c gv t s₂)
            | none => (.ok (), s₂)
          | none => (.ok (), s₂)
        else (.ok (), s₂)) = _
  by_cases hlt : cr.updatedAt < t
  · rw [if_pos hlt, if_pos hlt, putEntry_val p k _ t hk2]
    show (match decodeGunValue (encodeGunValue v) with
          | some gv => ((Except.ok () : Except Err Unit), putLocalOn c gv t s₂)
          | none => (.ok (), s₂)) = _
    rw [decode_encode v]
  · rw [if_neg hlt, if_neg hlt]

/-- Delivering the canonical single-path frame: traverse, then apply the
value exactly when the incoming timestamp strictly exceeds the resolved
child's stored one. -/
theorem deliver_single {s : State} {p k : String} {c : Nat} {s₂ : State} {cr : NodeRec}
    (v : GunValue) (t : ℚ) (mid : String)
    (hsp : (splitSlash p).get? 1 = none) (hk2 : k ≠ "_")
    (hres : resolve2 p k s = (.ok c, s₂)) (hcr : storeLookup s₂ c = some cr) :
    incomingMessage (createPutMsg [p] k v t mid) s =
      (.ok (), if cr.updatedAt < t then putLocalOn c v t s₂ else s₂) := by
  obtain ⟨nid, s₁, hg1, hg2⟩ : ∃ nid s₁,
      getOp 0 p s = (.ok nid, s₁) ∧ getOp nid k s₁ = (.ok c, s₂) := by
    unfold resolve2 at hres
    cases hgo : getOp 0 p s with
    | mk res s₁ =>
      rw [hgo] at hres
      cases res with
      | error e => cases hres
      | ok nid => exact ⟨nid, s₁, rfl, hres⟩
  have hPE : processEntry p (putEntry p k (encodeGunValue v) t) s =
      (.ok (), if cr.updatedAt < t then putLocalOn c v t s₂ else s₂) := by
    unfold processEntry
    rw [hg1]
    show (match (splitSlash p).get? 1 with
          | some name =>
            match getOp nid name s₁ with
            | (.error e, s') => ((Except.error e : Except Err Unit), s')
            | (.ok nid₂, s') =>
              match (jGet (jGet (putEntry p k (encodeGunValue v) t) "_") ">").asObj with
              | some times => processFields nid₂ (putEntry p k (encodeGunValue v) t) times s'
              | none => (.ok (), s')
          | none =>
            match (jGet (jGet (putEntry p k (encodeGunValue v) t) "_") ">").asObj with
            | some times => processFields nid (putEntry p k (encodeGunValue v) t) times s₁
            | none => (.ok (), s₁)) = _
    rw [hsp]
    show (match (jGet (jGet (putEntry p k (encodeGunValue v) t) "_") ">").asObj with
          | some times => processFields nid (putEntry p k (encodeGunValue v) t) times s₁
          | none => ((Except.ok () : Except Err Unit), s₁)) = _
    rw [putEntry_times p k _ t hk2]
    show processFields nid (putEntry p k (encodeGunValue v) t) [(k, .num t)] s₁ = _
    unfold processFields
    rw [processField_canonical v t hk2 hg2 hcr]
    rfl
  rw [createPutMsg_single]
  show incomingObj [("#", .str mid), ("put", .obj [(p, putEntry p k (encodeGunValue v) t)])] s = _
  rw [incomingObj_put_only [("#", .str mid), ("put", .obj [(p, putEntry p k (encodeGunValue v) t)])]
    s [(p, putEntry p k (encodeGunValue v) t)] rfl rfl]
  unfold incomingPut
  rw [hPE]
  rfl

/-! ## Claim C9 — the wire encoding of `GunValue` -/

/-- C9 (counterexample): the claim says `Text` encodes to a bare JSON
string, but the derived serde encoding is externally tagged. -/
theorem c9_counterexample : encodeGunValue (GunValue.Text "a") ≠ Json.str "a" := by
  intro h
  rw [show encodeGunValue (GunValue.Text "a") =
    Json.obj [("Text", Json.str "a")] from rfl] at h
  cases h

/-- C9 (amended): the JSON encoding `create_put_msg` embeds is serde's
externally tagged enum form — `Null` → the string `"Null"`, `Bit`/`Number`/
`Text`/`Link`/`Children` → a single-entry object keyed by the variant name —
and `incoming_put`'s decoder inverts it exactly. -/
theorem c9_value_encoding (v : GunValue) :
    decodeGunValue (encodeGunValue v) = some v ∧
    encodeGunValue GunValue.Null = Json.str "Null" ∧
    (∀ b, encodeGunValue (GunValue.Bit b) = Json.obj [("Bit", Json.bool b)]) ∧
    (∀ q, encodeGunValue (GunValue.Number q) = Json.obj [("Number", Json.num q)]) ∧
    (∀ s, encodeGunValue (GunValue.Text s) = Json.obj [("Text", Json.str s)]) ∧
    (∀ i, encodeGunValue (GunValue.Link i) = Json.obj [("Link", Json.num (i : ℚ))]) ∧
    (∀ m, encodeGunValue (GunValue.Children m) =
      Json.obj [("Children", Json.obj (encodeEntries m))]) :=
  ⟨decode_encode v, rfl, fun _ => rfl, fun _ => rfl, fun _ => rfl, fun _ => rfl,
    fun _ => rfl⟩

/-! ## Claim C2 — the postcondition of `put_local` -/

/-- The written vertex's record after `put_local`, through a handle. -/
theorem putLocal_target_handle {s : State} {i : Nat} {rec : NodeRec} (v : GunValue) (t : ℚ)
    (hrec : handleLookup s i = some rec)
    (hpar : ∀ pk ∈ rec.parents, pk.1 ≠ i) :
    handleLookup (putLocalOn i v t s) i =
      some { rec with updatedAt := t, value := some v, children := [] } := by
  rw [putLocalOn_eq v t hrec]
  by_cases h0 : i = 0
  · subst h0
    rw [handleLookup_zero, clearParents_root]
    rw [handleLookup_zero] at hrec
    cases hrec
    show some ((updNode s 0 _).root) = _
    unfold updNode
    rw [if_pos rfl]
  · rw [handleLookup_of_ne _ _ h0]
    rw [handleLookup_of_ne _ _ h0] at hrec
    rw [clearParents_lookup_not_mem _ _ _ hpar]
    exact storeLookup_updNode_self s i _ rec h0 hrec

/-- C2 (counterexample): after `put_local` on a direct child of the root,
the parent edge `(0, "k")` is recorded, yet the root's value is *not*
cleared — the root (id 0) is never inserted into the store, so the parent
loop's `store.get(parent_id)` misses it. -/
theorem c2_counterexample :
    (0, "k") ∈ parentsOf (putLocalOn 1 (.Text "w") 2
        (getOp 0 "k" (putOp 0 (.Text "r") 1 initState)).2) 1 ∧
    (valueOf (putLocalOn 1 (.Text "w") 2
        (getOp 0 "k" (putOp 0 (.Text "r") 1 initState)).2) 0).isSome = true := by
  constructor
  · show (0, "k") ∈ [(0, "k")]
    simp
  · rfl

/-- C2 (amended): immediately after `put_local(w, t)` on a vertex that is
not its own parent, the vertex has `updated_at = t`, `value = Some w` and
empty children, and every parent recorded in `parents` that is *present in
the store* has its value cleared to `None`.  (The root, id 0, is never in
the store, so a root parent keeps its value — see the counterexample.) -/
theorem c2_put_local (s : State) (i : Nat) (v : GunValue) (t : ℚ) (rec : NodeRec)
    (h1 : handleLookup s i = some rec) (h2 : ∀ pk ∈ rec.parents, pk.1 ≠ i) :
    uatOf (putLocalOn i v t s) i = some t ∧
    valueOf (putLocalOn i v t s) i = some v ∧
    childrenOf (putLocalOn i v t s) i = [] ∧
    (∀ pk ∈ rec.parents, ∀ pr, storeLookup s pk.1 = some pr →
      ∃ pr', storeLookup (putLocalOn i v t s) pk.1 = some pr' ∧ pr'.value = none) := by
  have htgt := putLocal_target_handle v t h1 h2
  refine ⟨?_, ?_, ?_, ?_⟩
  · unfold uatOf
    rw [htgt]
    rfl
  · unfold valueOf
    rw [htgt]
    rfl
  · unfold childrenOf
    rw [htgt]
    rfl
  · intro pk hpk pr hpr
    rw [putLocalOn_eq v t h1]
    set s₁ := updNode s i (fun n => { n with updatedAt := t, value := some v, children := [] })
      with hs₁
    have hpr₁ : storeLookup s₁ pk.1 = some pr := by
      rw [hs₁, storeLookup_updNode_ne _ _ _ _ (h2 pk hpk)]
      exact hpr
    obtain ⟨pr', hpr', hv'⟩ := clearParents_clears rec.parents s₁ pk hpk pr hpr₁
    exact ⟨pr', hpr', hv'⟩

/-- C2 (witness): the amended postcondition at a concrete write. -/
theorem c2_put_local_witness :
    uatOf (putLocalOn 0 (.Text "x") 1 initState) 0 = some 1 ∧
    valueOf (putLocalOn 0 (.Text "x") 1 initState) 0 = some (.Text "x") ∧
    childrenOf (putLocalOn 0 (.Text "x") 1 initState) 0 = [] ∧
    (∀ pk ∈ initState.root.parents, ∀ pr, storeLookup initState pk.1 = some pr →
      ∃ pr', storeLookup (putLocalOn 0 (.Text "x") 1 initState) pk.1 = some pr' ∧
        pr'.value = none) :=
  c2_put_local initState 0 (.Text "x") 1 initState.root rfl (by simp [initState])

/-! ## Claim C4 — scalar vertices and children -/

/-- C4 (counterexample): the invariant `value = Some ⇒ children = ∅` fails
in a reachable state: write a scalar to a vertex, then `get` a child of it —
`get_child_id` allocates the child without clearing the scalar. -/
theorem c4_counterexample :
    Reach (getOp 1 "k" (putOp 1 (.Text "x") 1 (getOp 0 "a" initState).2)).2 ∧
    ¬ ScalarLeaf (getOp 1 "k" (putOp 1 (.Text "x") 1 (getOp 0 "a" initState).2)).2 := by
  constructor
  · exact Reach.get 1 "k"
      (Reach.put 1 (.Text "x") 1 (Reach.get 0 "a" Reach.init (by decide)) (by decide))
      (by decide)
  · decide

/-- C4 (amended): `put_local` preserves and locally re-establishes the
invariant `value = Some ⇒ children = ∅` (the written vertex gets a scalar
*and* empty children in the same step), and `get` preserves it on vertices
that do not currently hold a scalar; the global invariant fails only
because `get` on a scalar-valued vertex allocates a child while keeping the
scalar — see the counterexample. -/
theorem c4_scalar_leaf_local :
    (∀ s i v t, ScalarLeaf s → ScalarLeaf (putLocalOn i v t s)) ∧
    (∀ s i k rec, ScalarLeaf s → handleLookup s i = some rec → rec.value = none →
      ScalarLeaf (getOp i k s).2) := by
  constructor
  · intro s i v t h
    unfold putLocalOn
    split
    · exact h
    · next self hself =>
      set f : NodeRec → NodeRec :=
        fun n => { n with updatedAt := t, value := some v, children := [] } with hf
      set s₁ := updNode s i f with hs₁
      set s₂ := clearParents self.parents s₁ with hs₂
      have hroot₂ : s₂.root = s₁.root := clearParents_root _ _
      constructor
      · rw [hroot₂, hs₁]
        unfold updNode
        by_cases h0 : i = 0
        · rw [if_pos h0]
          intro _
          rfl
        · rw [if_neg h0]
          split
          · exact h.1
          · exact h.1
      · intro en hen
        obtain ⟨r₁, hmem₁, hor₁⟩ := clearParents_mem self.parents s₁ en hen
        have hmem₀ : ∃ r₀, (en.1, r₀) ∈ s.store ∧ (r₁ = r₀ ∨ r₁ = f r₀) := by
          rw [hs₁] at hmem₁
          unfold updNode at hmem₁
          by_cases h0 : i = 0
          · rw [if_pos h0] at hmem₁
            exact ⟨r₁, hmem₁, .inl rfl⟩
          · rw [if_neg h0] at hmem₁
            cases hsl : storeLookup s i with
            | none =>
              rw [hsl] at hmem₁
              exact ⟨r₁, hmem₁, .inl rfl⟩
            | some ri =>
              rw [hsl] at hmem₁
              rcases mem_ninsert _ _ _ _ hmem₁ with he | hm
              · have ha : en.1 = i := congrArg Prod.fst he
                have hb : r₁ = f ri := congrArg Prod.snd he
                refine ⟨ri, ?_, .inr hb⟩
                rw [ha]
                exact nlookup_mem hsl
              · exact ⟨r₁, hm, .inl rfl⟩
        obtain ⟨r₀, hm₀, hor₀⟩ := hmem₀
        have h₀ := h.2 (en.1, r₀) hm₀
        intro hsome
        rcases hor₁ with h1 | h1 <;> rcases hor₀ with h2 | h2
        · rw [h1, h2] at hsome ⊢
          exact h₀ hsome
        · rw [h1, h2]
        · rw [h1, h2] at hsome
          cases hsome
        · rw [h1, h2] at hsome
          cases hsome
  · intro s i k rec h hrec hv
    -- a fresh allocation under a valueless vertex keeps the invariant: the
    -- fresh child has no value, and the vertex gaining the child edge has
    -- no value either
    have halloc : ScalarLeaf (allocChild s i k rec) := by
      unfold allocChild updNode
      by_cases h0 : i = 0
      · rw [if_pos h0]
        subst h0
        rw [handleLookup_zero] at hrec
        cases hrec
        constructor
        · intro hsome
          rw [show ({ s.root with
              children := ainsert s.root.children k s.nextId } : NodeRec).value =
              s.root.value from rfl, hv] at hsome
          cases hsome
        · intro en hen
          rcases mem_ninsert _ _ _ _ hen with he | hm
          · have hb : en.2 = freshChild s 0 k s.root := congrArg Prod.snd he
            rw [hb]
            intro _
            rfl
          · exact h.2 en hm
      · rw [if_neg h0]
        have hstore : storeLookup s i = some rec := by
          rw [← handleLookup_of_ne s i h0]
          exact hrec
        split
        · next ri hri =>
          have hriv : ri.value = none := by
            by_cases hin : i = s.nextId
            · rw [show storeLookup { s with
                  store := ninsert s.store s.nextId (freshChild s i k rec),
                  nextId := s.nextId + 1 } i =
                  nlookup (ninsert s.store s.nextId (freshChild s i k rec)) i from rfl,
                hin, nlookup_ninsert_self] at hri
              cases hri
              rfl
            · rw [show storeLookup { s with
                  store := ninsert s.store s.nextId (freshChild s i k rec),
                  nextId := s.nextId + 1 } i =
                  nlookup (ninsert s.store s.nextId (freshChild s i k rec)) i from rfl,
                nlookup_ninsert_ne _ _ _ _ hin] at hri
              rw [show nlookup s.store i = storeLookup s i from rfl, hstore] at hri
              cases hri
              exact hv
          constructor
          · exact h.1
          · intro en hen
            rcases mem_ninsert _ _ _ _ hen with he | hm
            · have hb : en.2 = { ri with children := ainsert ri.children k s.nextId } :=
                congrArg Prod.snd he
              rw [hb]
              intro hsome
              rw [show ({ ri with children := ainsert ri.children k s.nextId } :
                  NodeRec).value = ri.value from rfl, hriv] at hsome
              cases hsome
            · rcases mem_ninsert _ _ _ _ hm with he' | hm'
              · have hb : en.2 = freshChild s i k rec := congrArg Prod.snd he'
                rw [hb]
                intro _
                rfl
              · exact h.2 en hm'
        · constructor
          · exact h.1
          · intro en hen
            rcases mem_ninsert _ _ _ _ hen with he | hm
            · have hb : en.2 = freshChild s i k rec := congrArg Prod.snd he
              rw [hb]
              intro _
              rfl
            · exact h.2 en hm
    have hmain : ScalarLeaf (getChildId i k s).2 := by
      cases hcl : alookup rec.children k with
      | some cid =>
        rw [getChildId_hit hrec hv hcl]
        exact h
      | none =>
        rw [getChildId_miss hrec hv hcl]
        by_cases hk : k = ""
        · subst hk
          unfold newChild
          rw [if_pos rfl]
          exact h
        · rw [newChild_eq hk hrec]
          exact halloc
    unfold getOp
    cases hgc : getChildId i k s with
    | mk res s₁ =>
      rw [hgc] at hmain
      cases res with
      | ok cid =>
        simp only []
        split
        · exact hmain
        · exact hmain
      | error e => exact hmain

/-- C4 (witness): both amended clauses at concrete inputs. -/
theorem c4_scalar_leaf_local_witness :
    ScalarLeaf (putLocalOn 0 (.Text "x") 1 initState) ∧
    ScalarLeaf (getOp 0 "a" initState).2 :=
  ⟨c4_scalar_leaf_local.1 initState 0 (.Text "x") 1 (by decide),
   c4_scalar_leaf_local.2 initState 0 "a" initState.root (by decide) rfl rfl⟩

/-! ## Claim C5 — the edge tables -/

/-- C5 (counterexample): the edge read off the child's `parents` set has no
matching entry in the parent's `children` map: writing a scalar to the
parent clears its children but leaves the child's stale `parents` entry. -/
theorem c5_counterexample :
    Reach (putLocalOn 1 (.Text "x") 2 (putLocalOn 2 (.Text "w") 1
      (getOp 1 "b" (getOp 0 "a" initState).2).2)) ∧
    (1, "b") ∈ parentsOf (putLocalOn 1 (.Text "x") 2 (putLocalOn 2 (.Text "w") 1
      (getOp 1 "b" (getOp 0 "a" initState).2).2)) 2 ∧
    childIdOf (putLocalOn 1 (.Text "x") 2 (putLocalOn 2 (.Text "w") 1
      (getOp 1 "b" (getOp 0 "a" initState).2).2)) 1 "b" = none := by
  refine ⟨?_, by decide, by decide⟩
  exact Reach.put 1 (.Text "x") 2
    (Reach.put 2 (.Text "w") 1
      (Reach.get 1 "b" (Reach.get 0 "a" Reach.init (by decide)) (by decide))
      (by decide))
    (by decide)

/-- C5 (amended): in every reachable state the *forward* direction holds —
every entry `(k, c)` of any vertex's `children` map points to a
store-resident vertex whose `parents` set contains the back-edge.  The
reverse direction (reading the edge off the child's `parents` set) fails,
because `put_local` clears `children` without erasing the child's stale
`parents` entries — see the counterexample. -/
theorem c5_forward_edges {s : State} (h : Reach s) :
    ∀ i n, handleLookup s i = some n → ∀ kc ∈ n.children,
      ∃ c, storeLookup s kc.2 = some c ∧ (n.id, kc.1) ∈ c.parents := by
  have hinv := graphInv_reach h
  intro i n hn kc hkc
  have hok : NodeOk s n := by
    by_cases h0 : i = 0
    · subst h0
      rw [handleLookup_zero] at hn
      cases hn
      exact hinv.2.2.2.2.2.1
    · rw [handleLookup_of_ne s i h0] at hn
      exact (store_facts hinv hn).2.2.2
  obtain ⟨_, _, _, hbe⟩ := hok.1 kc hkc
  obtain ⟨c, hc, hm, _⟩ := backEdge_some hbe
  exact ⟨c, hc, hm⟩

/-- C5 (witness): the forward edge property at the initial state. -/
theorem c5_forward_edges_witness :
    Reach initState ∧
    (∀ i n, handleLookup initState i = some n → ∀ kc ∈ n.children,
      ∃ c, storeLookup initState kc.2 = some c ∧ (n.id, kc.1) ∈ c.parents) :=
  ⟨Reach.init, c5_forward_edges Reach.init⟩

/-! ## Claim C10 — empty path keys abort the handler -/

theorem strLt_empty_right (x : String) : strLt x "" = false := by
  unfold strLt
  show charListLt x.data [] = false
  cases x.data with
  | nil => rfl
  | cons c cs => rfl

/-- In a sorted entry list containing the empty key, the empty key comes
first. -/
theorem sorted_head_empty (entries : List (String × Json))
    (hs : entries.Pairwise (fun a b => strLt a.1 b.1))
    (hm : "" ∈ entries.map Prod.fst) :
    ∃ d rest, entries = ("", d) :: rest := by
  cases entries with
  | nil => cases hm
  | cons hd rest =>
    obtain ⟨a, d⟩ := hd
    by_cases ha : a = ""
    · subst ha
      exact ⟨d, rest, rfl⟩
    · exfalso
      rcases List.mem_map.mp hm with ⟨en, hen, he⟩
      rcases List.mem_cons.mp hen with h1 | h1
      · rw [h1] at he
        exact ha he
      · have := (List.pairwise_cons.mp hs).1 en h1
        rw [he] at this
        rw [strLt_empty_right] at this
        cases this

/-- C10 (confirmed): (a) every direct child of the root has an empty stored
`path` (the root's empty key is never pushed); (b) `create_put_msg` for such
a vertex keys its put object by the empty string; (c) delivering any put
object that contains an empty-string path key makes `incoming_put` call
`get("")`, which aborts on the `Key length must be greater than zero`
assertion, with the store left as it was. -/
theorem c10_empty_path_abort :
    (∀ (s : State) (k : String) (c : Nat) (s' : State), GraphInv s → k ≠ "" →
      getOp 0 k s = (.ok c, s') → pathOf s' c = some []) ∧
    (∀ (k : String) (v : GunValue) (t : ℚ) (mid : String),
      (jGet (createPutMsg [] k v t mid) "put").asObj =
        some [("", putEntry "" k (encodeGunValue v) t)]) ∧
    (∀ (s : State) (entries : List (String × Json)), GraphInv s →
      entries.Pairwise (fun a b => strLt a.1 b.1) →
      "" ∈ entries.map Prod.fst →
      incomingPut entries s = (.error .keyLen, s)) := by
  refine ⟨?_, ?_, ?_⟩
  · intro s k c s' hinv hk hget
    have hrv := hinv.2.2.2.2.2.1
    have hrpath : s.root.path = [] := hinv.2.2.2.1
    have hrkey : s.root.key = "" := hinv.2.2.1
    have h0ne : (0 : Nat) ≠ s.nextId := by
      have := hinv.2.2.2.2.1
      omega
    have hfreshPath : (freshChild s 0 k s.root).path = [] := by
      unfold freshChild
      rw [hrpath, hrkey]
      rfl
    cases hv : s.root.value with
    | some w =>
      rw [getOp_eq_alloc_scalar (handleLookup_zero s) (by rw [hv]; rfl) hk h0ne] at hget
      cases hget
      unfold pathOf
      rw [handleLookup_of_ne _ _ (by omega : s.nextId ≠ 0),
        allocChild_fresh s 0 k s.root h0ne]
      simp [hfreshPath]
    | none =>
      cases hc : alookup s.root.children k with
      | some cid =>
        obtain ⟨_, hcne, _, hbe⟩ := hinv.2.2.2.2.2.1.1 (k, cid) (alookup_mem hc)
        obtain ⟨cr, hcr, _, hpath⟩ := backEdge_some hbe
        rw [getOp_eq_hit (handleLookup_zero s) hv hc hcr] at hget
        cases hget
        unfold pathOf
        rw [handleLookup_of_ne _ _ hcne, hcr]
        simp [hpath hinv.1]
      | none =>
        rw [getOp_eq_alloc_miss (handleLookup_zero s) hv hc hk h0ne] at hget
        cases hget
        unfold pathOf
        rw [handleLookup_of_ne _ _ (by omega : s.nextId ≠ 0),
          allocChild_fresh s 0 k s.root h0ne]
        simp [hfreshPath]
  · intro k v t mid
    rw [createPutMsg_empty]
    rfl
  · intro s entries hinv hs hm
    obtain ⟨d, rest, he⟩ := sorted_head_empty entries hs hm
    subst he
    have hempty : alookup s.root.children "" = none := by
      apply alookup_none_of_keys
      intro kc hkc
      exact (hinv.2.2.2.2.2.1.1 kc hkc).1
    have hget : getOp 0 "" s = (.error .keyLen, s) :=
      getOp_empty_key (handleLookup_zero s) hempty
    unfold incomingPut processEntry
    rw [hget]

/-- C10 (witness): all three clauses at concrete inputs. -/
theorem c10_empty_path_abort_witness :
    pathOf (getOp 0 "x" initState).2 1 = some [] ∧
    (jGet (createPutMsg [] "x" (.Text "hi") 5 "m") "put").asObj =
      some [("", putEntry "" "x" (encodeGunValue (.Text "hi")) 5)] ∧
    incomingPut [("", Json.null)] initState = (.error .keyLen, initState) := by
  refine ⟨?_, ?_, ?_⟩
  · exact c10_empty_path_abort.1 initState "x" 1 (getOp 0 "x" initState).2
      (by decide) (by decide) rfl
  · exact c10_empty_path_abort.2.1 "x" (.Text "hi") 5 "m"
  · exact c10_empty_path_abort.2.2 initState [("", Json.null)] (by decide)
      (by simp) (by simp)

/-! ## Claim C8 — malformed frames -/

/-- C8 (counterexample): a put frame whose HAM state maps a field to a
non-numeric timestamp makes `incoming_put` panic on
`as_f64().unwrap()` — the handler aborts instead of dropping the part. -/
theorem c8_counterexample :
    (incomingMessage (.obj [("#", .str "m"), ("put", .obj [("a",
        obj2 "_" (obj2 "#" (.str "a") ">" (.obj [("x", .str "oops")])) "x"
          (.str "v"))])]) initState).1 = .error .notNum := rfl

/-- C8 (amended): structurally malformed parts are silently dropped —
a missing/non-object `_[">"]` skips the entry and processing continues with
the rest, and an undecodable value skips only that field — but a
non-numeric HAM timestamp panics (`as_f64().unwrap()`), aborting the
handler thread. -/
theorem c8_malformed_handling :
    (∀ (s : State) (nid : Nat) (entry : Json) (k : String) (jv : Json)
        (rest : List (String × Json)), jv.asNum = none →
      processFields nid entry ((k, jv) :: rest) s = (.error .notNum, s)) ∧
    (∀ (s : State) (p : String) (d : Json) (rest : List (String × Json))
        (nid : Nat) (s₁ : State),
      (jGet (jGet d "_") ">").asObj = none → (splitSlash p).get? 1 = none →
      getOp 0 p s = (.ok nid, s₁) →
      incomingPut ((p, d) :: rest) s = incomingPut rest s₁) ∧
    (∀ (s₁ s₂ : State) (nid c : Nat) (entry : Json) (k : String) (t : ℚ)
        (jv : Json) (cr : NodeRec),
      getOp nid k s₁ = (.ok c, s₂) → storeLookup s₂ c = some cr →
      jOptGet entry k = some jv → decodeGunValue jv = none →
      processField nid entry (k, .num t) s₁ = (.ok (), s₂)) := by
  refine ⟨?_, ?_, ?_⟩
  · intro s nid entry k jv rest h
    have h1 : processField nid entry (k, jv) s = (.error .notNum, s) := by
      unfold processField
      show (match jv.asNum with
            | none => ((Except.error Err.notNum : Except Err Unit), s)
            | some t =>
              match getOp nid k s with
              | (.error e, s') => (.error e, s')
              | (.ok cid, s') =>
                match storeLookup s' cid with
                | none => (.error .storeMiss, s')
                | some child =>
                  if child.updatedAt < t then
                    match jOptGet entry k with
                    | some jv' =>
                      match decodeGunValue jv' with
                      | some gv => (.ok (), putLocalOn cid gv t s')
                      | none => (.ok (), s')
                    | none => (.ok (), s')
                  else (.ok (), s')) = _
      rw [h]
    unfold processFields
    rw [h1]
  · intro s p d rest nid s₁ hno hsp hg
    have hpe : processEntry p d s = (.ok (), s₁) := by
      unfold processEntry
      rw [hg]
      show (match (splitSlash p).get? 1 with
            | some name =>
              match getOp nid name s₁ with
              | (.error e, s') => ((Except.error e : Except Err Unit), s')
              | (.ok nid₂, s') =>
                match (jGet (jGet d "_") ">").asObj with
                | some times => processFields nid₂ d times s'
                | none => (.ok (), s')
            | none =>
              match (jGet (jGet d "_") ">").asObj with
              | some times => processFields nid d times s₁
              | none => (.ok (), s₁)) = _
      rw [hsp]
      show (match (jGet (jGet d "_") ">").asObj with
            | some times => processFields nid d times s₁
            | none => ((Except.ok () : Except Err Unit), s₁)) = _
      rw [hno]
    show (match processEntry p d s with
          | (.ok _, s₁) => incomingPut rest s₁
          | (.error e, s₁) => ((Except.error e : Except Err Unit), s₁)) =
        incomingPut rest s₁
    rw [hpe]
  · intro s₁ s₂ nid c entry k t jv cr hg hcr hjv hdec
    unfold processField
    show (match getOp nid k s₁ with
          | (.error e, s') => ((Except.error e : Except Err Unit), s')
          | (.ok cid, s') =>
            match storeLookup s' cid with
            | none => (.error .storeMiss, s')
            | some child =>
              if child.updatedAt < t then
                match jOptGet entry k with
                | some jv' =>
                  match decodeGunValue jv' with
                  | some gv => (.ok (), putLocalOn cid gv t s')
                  | none => (.ok (), s')
                | none => (.ok (), s')
              else (.ok (), s')) = _
    rw [hg]
    show (match storeLookup s₂ c with
          | none => ((Except.error Err.storeMiss : Except Err Unit), s₂)
          | some child =>
            if child.updatedAt < t then
              match jOptGet entry k with
              | some jv' =>
                match decodeGunValue jv' with
                | some gv => (.ok (), putLocalOn c gv t s₂)
                | none => (.ok (), s₂)
              | none => (.ok (), s₂)
            else (.ok (), s₂)) = _
    rw [hcr]
    show (if cr.updatedAt < t then
            match jOptGet entry k with
            | some jv' =>
              match decodeGunValue jv' with
              | some gv => ((Except.ok () : Except Err Unit), putLocalOn c gv t s₂)
              | none => (.ok (), s₂)
            | none => (.ok (), s₂)
          else (.ok (), s₂)) = _
    by_cases hlt : cr.updatedAt < t
    · rw [if_pos hlt, hjv]
      show (match decodeGunValue jv with
            | some gv => ((Except.ok () : Except Err Unit), putLocalOn c gv t s₂)
            | none => (.ok (), s₂)) = _
      rw [hdec]
    · rw [if_neg hlt]

/-- C8 (witness): all three amended clauses at concrete inputs. -/
theorem c8_malformed_handling_witness :
    processFields 0 Json.null [("x", .str "oops")] initState =
      (.error .notNum, initState) ∧
    incomingPut [("a", Json.null)] initState =
      incomingPut [] (getOp 0 "a" initState).2 ∧
    processField 0 (Json.obj [("x", Json.num 5)]) ("x", .num 3) initState =
      (.ok (), (getOp 0 "x" initState).2) :=
  ⟨c8_malformed_handling.1 initState 0 Json.null "x" (.str "oops") [] rfl,
   c8_malformed_handling.2.1 initState "a" Json.null [] 1 (getOp 0 "a" initState).2
     rfl rfl rfl,
   c8_malformed_handling.2.2 initState (getOp 0 "x" initState).2 0 1
     (Json.obj [("x", Json.num 5)]) "x" 3 (Json.num 5)
     (freshChild initState 0 "x" initState.root) rfl rfl rfl rfl⟩

/-- After an accepted write to the child a resolution reached (whether or
not the traversal allocated), the path re-resolves to the same child
without allocation and the child carries the written value. -/
theorem after_put_resolvedAt {s₂ : State} {p k : String} {nid c : Nat} {cr : NodeRec}
    (h3 : s₂.root.value = none) (h4 : alookup s₂.root.children p = some nid)
    (h5 : nid ≠ 0) (h6 : c ≠ 0)
    (h7 : ∃ Pr, storeLookup s₂ nid = some Pr ∧ alookup Pr.children k = some c)
    (h8 : storeLookup s₂ c = some cr) (h9 : (nid, k) ∈ cr.parents)
    (h10 : ∀ pk ∈ cr.parents, pk.1 < c) (v : GunValue) (t : ℚ) :
    ResolvedAt (putLocalOn c v t s₂) p k nid c
      { cr with updatedAt := t, value := some v, children := [] } := by
  obtain ⟨Pr, hPr, hPc⟩ := h7
  have hroot : (putLocalOn c v t s₂).root = s₂.root := putLocal_root v t h6
  have hnc : nid ≠ c := Nat.ne_of_lt (h10 (nid, k) h9)
  obtain ⟨Pr', hPr', hPv', hPc'⟩ := putLocal_parent v t h6 h8 h9 hnc hPr
  refine ⟨by rw [hroot]; exact h3, by rw [hroot]; exact h4, h5, h6,
    ⟨Pr', hPr', hPv', by rw [hPc']; exact hPc⟩, ?_, h9, h10⟩
  exact putLocal_target v t h6 h8 (fun pk hpk => Nat.ne_of_lt (h10 pk hpk))

/-! ## Claim C6 — round trip of a put frame -/

/-- C6 (counterexample): for a vertex that is a direct child of the root
(`path = []`), the frame `create_put_msg` produces aborts the receiving
handler instead of reproducing the write — no vertex receives the value. -/
theorem c6_counterexample :
    incomingMessage (createPutMsg [] "x" (.Text "hi") 5 "m") initState =
      (.error .keyLen, initState) := rfl

/-- C6 (amended): for a sender vertex whose `path` has exactly one
component `p` (and a field key other than `""`/`"_"`, with a positive
timestamp), the frame built by `create_put_msg`, delivered to a fresh node,
reproduces the write: the vertex reached by `p` then `k` holds the same
value, the same `updated_at`, the same key, and the same path.  For `path
= []` the receiver aborts (see the counterexample), and for deeper paths
the value lands on a differently-addressed vertex (claim C7). -/
theorem c6_roundtrip (p k : String) (v : GunValue) (t : ℚ) (mid : String)
    (hp : p ≠ "") (hsp : (splitSlash p).get? 1 = none) (hk : k ≠ "")
    (hk2 : k ≠ "_") (ht : 0 < t) :
    ∃ S : State, incomingMessage (createPutMsg [p] k v t mid) initState = (.ok (), S) ∧
      alookup S.root.children p = some 1 ∧ childIdOf S 1 k = some 2 ∧
      valueOf S 2 = some v ∧ uatOf S 2 = some t ∧
      keyOf S 2 = some k ∧ pathOf S 2 = some [p] := by
  have h0ne : (0 : Nat) ≠ initState.nextId := by decide
  have hg1 : getOp 0 p initState =
      (.ok 1, allocChild initState 0 p initState.root) :=
    getOp_eq_alloc_miss (handleLookup_zero initState) rfl rfl hp h0ne
  set A := allocChild initState 0 p initState.root with hA
  set f1 : NodeRec := freshChild initState 0 p initState.root with hf1
  have hAfresh : storeLookup A 1 = some f1 := allocChild_fresh initState 0 p _ h0ne
  have hAhandle : handleLookup A 1 = some f1 := by
    rw [handleLookup_of_ne _ _ (by decide)]
    exact hAfresh
  have hAnext : A.nextId = 2 := allocChild_nextId _ _ _ _
  have h1ne : (1 : Nat) ≠ A.nextId := by rw [hAnext]; decide
  have hg2 : getOp 1 k A = (.ok A.nextId, allocChild A 1 k f1) :=
    getOp_eq_alloc_miss hAhandle rfl rfl hk h1ne
  set S₂ := allocChild A 1 k f1 with hS₂
  set cr : NodeRec := freshChild A 1 k f1 with hcr
  have hS₂c : storeLookup S₂ 2 = some cr := by
    rw [hS₂, ← hAnext]
    exact allocChild_fresh A 1 k f1 h1ne
  have hres : resolve2 p k initState = (.ok 2, S₂) := by
    unfold resolve2
    rw [hg1]
    show getOp 1 k A = (.ok 2, S₂)
    rw [hg2, hAnext]
  have hcru : cr.updatedAt = 0 := rfl
  have hdel := deliver_single v t mid hsp hk2 hres hS₂c
  rw [hcru, if_pos ht] at hdel
  set S := putLocalOn 2 v t S₂ with hS
  have hbnd : ∀ pk ∈ cr.parents, pk.1 < 2 := by
    intro pk hpk
    have he : pk = (1, k) := List.mem_singleton.mp hpk
    rw [he]
    show (1 : Nat) < 2
    omega
  have htgt : storeLookup S 2 =
      some { cr with updatedAt := t, value := some v, children := [] } :=
    putLocal_target v t (by decide) hS₂c (fun pk hpk => Nat.ne_of_lt (hbnd pk hpk))
  have hroot : S.root = S₂.root := putLocal_root v t (by decide)
  have hS₂root : S₂.root = A.root := allocChild_root A 1 k f1 (by decide)
  have hAroot : A.root =
      { initState.root with children := ainsert initState.root.children p 1 } :=
    allocChild_root_zero initState p initState.root
  have hS₂P : handleLookup S₂ 1 = some { f1 with children := ainsert f1.children k 2 } := by
    rw [hS₂, ← hAnext]
    exact allocChild_parent k hAhandle h1ne
  have hS₂Pstore : storeLookup S₂ 1 = some { f1 with children := ainsert f1.children k 2 } := by
    rw [← handleLookup_of_ne S₂ 1 (by decide)]
    exact hS₂P
  have hmem : (1, k) ∈ cr.parents := by
    show (1, k) ∈ [(1, k)]
    simp
  obtain ⟨Pr', hPr', _, hPc'⟩ := putLocal_parent v t (by decide) hS₂c hmem (by decide)
    hS₂Pstore
  refine ⟨S, hdel, ?_, ?_, ?_, ?_, ?_, ?_⟩
  · rw [hroot, hS₂root, hAroot]
    exact alookup_ainsert_self _ _ _
  · unfold childIdOf
    rw [handleLookup_of_ne S 1 (by decide), hPr']
    show alookup Pr'.children k = some 2
    rw [hPc']
    show alookup (ainsert f1.children k 2) k = some 2
    exact alookup_ainsert_self _ _ _
  · unfold valueOf
    rw [handleLookup_of_ne S 2 (by decide), htgt]
    rfl
  · unfold uatOf
    rw [handleLookup_of_ne S 2 (by decide), htgt]
    rfl
  · unfold keyOf
    rw [handleLookup_of_ne S 2 (by decide), htgt]
    rfl
  · unfold pathOf
    rw [handleLookup_of_ne S 2 (by decide), htgt]
    show some cr.path = some [p]
    rw [hcr]
    show some (f1.path ++ (if f1.key = "" then [] else [f1.key])) = some [p]
    rw [hf1]
    show some ((initState.root.path ++
      (if initState.root.key = "" then [] else [initState.root.key])) ++
      (if p = "" then [] else [p])) = some [p]
    rw [if_neg hp]
    rfl

/-- C6 (witness): the amended round trip at concrete inputs. -/
theorem c6_roundtrip_witness :
    ∃ S : State, incomingMessage (createPutMsg ["a"] "x" (.Text "w") 5 "m") initState =
        (.ok (), S) ∧
      alookup S.root.children "a" = some 1 ∧ childIdOf S 1 "x" = some 2 ∧
      valueOf S 2 = some (.Text "w") ∧ uatOf S 2 = some 5 ∧
      keyOf S 2 = some "x" ∧ pathOf S 2 = some ["a"] :=
  c6_roundtrip "a" "x" (.Text "w") 5 "m" (by decide) (by decide) (by decide)
    (by decide) (by decide)

/-! ## Claim C3 — idempotence of merge -/

/-- C3 (counterexample): delivering the same well-formed put frame twice is
*not* always the same as delivering it once.  After `put` on the root, the
root holds a scalar that the parent loop can never clear (the root is not
in the store), so every delivery of the frame re-allocates the path vertex:
the second delivery changes the state again (here, the allocation counter
moves from 3 to 5). -/
theorem c3_counterexample :
    (incomingMessage (createPutMsg ["a"] "k" (.Text "v") 10 "m")
      (incomingMessage (createPutMsg ["a"] "k" (.Text "v") 10 "m")
        (putOp 0 (.Text "r") 1 initState)).2).2.nextId = 5 ∧
    (incomingMessage (createPutMsg ["a"] "k" (.Text "v") 10 "m")
      (putOp 0 (.Text "r") 1 initState)).2.nextId = 3 := ⟨by decide, by decide⟩

/-- C3 (amended): merge is idempotent for canonical single-field frames with
a nonempty single-component path, a field key other than `""`/`"_"` and a
positive timestamp, provided the root holds no scalar: the second delivery
is rejected by the strict `>` test and returns the exact same state.  When
the root holds a scalar the re-traversal allocates a fresh child each time
and idempotence fails — see the counterexample. -/
theorem c3_idempotent (s : State) (p k : String) (v : GunValue) (t : ℚ) (mid : String)
    (hinv : GraphInv s) (hroot : s.root.value = none) (hp : p ≠ "")
    (hsp : (splitSlash p).get? 1 = none) (hk : k ≠ "") (hk2 : k ≠ "_") (ht : 0 < t) :
    ∃ s₁, incomingMessage (createPutMsg [p] k v t mid) s = (.ok (), s₁) ∧
      incomingMessage (createPutMsg [p] k v t mid) s₁ = (.ok (), s₁) := by
  obtain ⟨nid, c, s₂, cr, hres, hinv₂, h3, h4, h5, h6, h7, h8, h9, h10, hdisj⟩ :=
    resolve2_spec p k hinv hroot hp hk
  have hdel := deliver_single v t mid hsp hk2 hres h8
  by_cases hlt : cr.updatedAt < t
  · rw [if_pos hlt] at hdel
    set s₁ := putLocalOn c v t s₂ with hs₁
    have hRA := after_put_resolvedAt h3 h4 h5 h6 h7 h8 h9 h10 v t
    have hres₁ : resolve2 p k s₁ = (.ok c, s₁) := resolve2_of_resolvedAt hRA
    have hcr₁ : storeLookup s₁ c =
        some { cr with updatedAt := t, value := some v, children := [] } :=
      hRA.2.2.2.2.2.1
    have hdel₂ := deliver_single v t mid hsp hk2 hres₁ hcr₁
    simp only [show ({ cr with updatedAt := t, value := some v, children := [] } :
      NodeRec).updatedAt = t from rfl] at hdel₂
    rw [if_neg (lt_irrefl t)] at hdel₂
    exact ⟨s₁, hdel, hdel₂⟩
  · rw [if_neg hlt] at hdel
    rcases hdisj with ⟨hseq, hRA⟩ | ⟨hu0, _⟩
    · subst hseq
      have hres' : resolve2 p k s₂ = (.ok c, s₂) := resolve2_of_resolvedAt hRA
      have hdel₂ := deliver_single v t mid hsp hk2 hres' h8
      rw [if_neg hlt] at hdel₂
      exact ⟨s₂, hdel, hdel₂⟩
    · exfalso
      rw [hu0] at hlt
      exact hlt ht

/-- C3 (witness): idempotence at concrete inputs. -/
theorem c3_idempotent_witness :
    ∃ s₁, incomingMessage (createPutMsg ["a"] "x" (.Text "w") 5 "m") initState =
        (.ok (), s₁) ∧
      incomingMessage (createPutMsg ["a"] "x" (.Text "w") 5 "m") s₁ = (.ok (), s₁) :=
  c3_idempotent initState "a" "x" (.Text "w") 5 "m" (by decide) rfl (by decide)
    (by decide) (by decide) (by decide) (by decide)

/-! ## Claim C1 — the LWW merge rule -/

/-- C1 (counterexample): the greater-timestamp write does *not* always win
regardless of arrival order.  After `put` on the root, the root's scalar is
never cleared (the root is outside the store), so each delivery re-allocates
the path vertex: delivering the `t = 20` frame before the `t = 10` frame
leaves the addressed child holding the `t = 10` value, while the opposite
order leaves the `t = 20` value. -/
theorem c1_counterexample :
    ((childIdOf (incomingMessage (createPutMsg ["a"] "k" (.Text "v1") 10 "m1")
        (incomingMessage (createPutMsg ["a"] "k" (.Text "v2") 20 "m2")
          (putOp 0 (.Text "r") 1 initState)).2).2 0 "a").bind
      (fun P => childIdOf (incomingMessage (createPutMsg ["a"] "k" (.Text "v1") 10 "m1")
        (incomingMessage (createPutMsg ["a"] "k" (.Text "v2") 20 "m2")
          (putOp 0 (.Text "r") 1 initState)).2).2 P "k")).bind
      (valueOf (incomingMessage (createPutMsg ["a"] "k" (.Text "v1") 10 "m1")
        (incomingMessage (createPutMsg ["a"] "k" (.Text "v2") 20 "m2")
          (putOp 0 (.Text "r") 1 initState)).2).2) = some (.Text "v1") ∧
    ((childIdOf (incomingMessage (createPutMsg ["a"] "k" (.Text "v2") 20 "m2")
        (incomingMessage (createPutMsg ["a"] "k" (.Text "v1") 10 "m1")
          (putOp 0 (.Text "r") 1 initState)).2).2 0 "a").bind
      (fun P => childIdOf (incomingMessage (createPutMsg ["a"] "k" (.Text "v2") 20 "m2")
        (incomingMessage (createPutMsg ["a"] "k" (.Text "v1") 10 "m1")
          (putOp 0 (.Text "r") 1 initState)).2).2 P "k")).bind
      (valueOf (incomingMessage (createPutMsg ["a"] "k" (.Text "v2") 20 "m2")
        (incomingMessage (createPutMsg ["a"] "k" (.Text "v1") 10 "m1")
          (putOp 0 (.Text "r") 1 initState)).2).2) = some (.Text "v2") := ⟨rfl, rfl⟩

/-- C1 (amended): for canonical single-field frames on a single-component
path, the merge engine applies `put_local(value, t)` to the child resolved
by the traversal exactly when `t` strictly exceeds the child's stored
`updated_at`; an equal timestamp changes nothing; and the greater-timestamp
write wins regardless of arrival order *provided* the traversal resolves
both deliveries to the same child — guaranteed when the root holds no
scalar and both timestamps beat the resolved child's stored one.  Without
that proviso order-independence fails (see the counterexample). -/
theorem c1_lww_merge (s : State) (p k : String) (c : Nat) (s₂ : State) (cr : NodeRec)
    (hsp : (splitSlash p).get? 1 = none) (hk2 : k ≠ "_")
    (hres : resolve2 p k s = (.ok c, s₂)) (hcr : storeLookup s₂ c = some cr) :
    (∀ v t mid, cr.updatedAt < t →
      incomingMessage (createPutMsg [p] k v t mid) s = (.ok (), putLocalOn c v t s₂)) ∧
    (∀ v t mid, ¬ cr.updatedAt < t →
      incomingMessage (createPutMsg [p] k v t mid) s = (.ok (), s₂)) ∧
    (∀ v mid, incomingMessage (createPutMsg [p] k v cr.updatedAt mid) s = (.ok (), s₂)) ∧
    (GraphInv s → s.root.value = none → p ≠ "" → k ≠ "" →
      ∀ v1 v2 t1 t2 mid1 mid2, t1 ≠ t2 → cr.updatedAt < t1 → cr.updatedAt < t2 →
      ∃ S S' : State,
        incomingMessage (createPutMsg [p] k v2 t2 mid2)
          (incomingMessage (createPutMsg [p] k v1 t1 mid1) s).2 = (.ok (), S) ∧
        incomingMessage (createPutMsg [p] k v1 t1 mid1)
          (incomingMessage (createPutMsg [p] k v2 t2 mid2) s).2 = (.ok (), S') ∧
        valueOf S c = valueOf S' c ∧ uatOf S c = uatOf S' c ∧
        valueOf S c = some (if t1 < t2 then v2 else v1) ∧
        uatOf S c = some (max t1 t2)) := by
  refine ⟨?_, ?_, ?_, ?_⟩
  · intro v t mid hlt
    have hdel := deliver_single v t mid hsp hk2 hres hcr
    rw [if_pos hlt] at hdel
    exact hdel
  · intro v t mid hlt
    have hdel := deliver_single v t mid hsp hk2 hres hcr
    rw [if_neg hlt] at hdel
    exact hdel
  · intro v mid
    have hdel := deliver_single v cr.updatedAt mid hsp hk2 hres hcr
    rw [if_neg (lt_irrefl cr.updatedAt)] at hdel
    exact hdel
  · intro hinv hroot hp hk v1 v2 t1 t2 mid1 mid2 ht12 hu1 hu2
    obtain ⟨nid, c', s₂', cr', hres', hinv₂', h3, h4, h5, h6, h7, h8, h9, h10, _⟩ :=
      resolve2_spec p k hinv hroot hp hk
    rw [hres] at hres'
    have hc' : c = c' := Except.ok.inj (congrArg Prod.fst hres')
    have hs' : s₂ = s₂' := congrArg Prod.snd hres'
    subst hc'
    subst hs'
    rw [hcr] at h8
    injection h8 with h8
    subst h8
    -- first order: f1 then f2
    have hd1 := deliver_single v1 t1 mid1 hsp hk2 hres hcr
    rw [if_pos hu1] at hd1
    have hRA1 := after_put_resolvedAt h3 h4 h5 h6 h7 hcr h9 h10 v1 t1
    have hres1 := resolve2_of_resolvedAt hRA1
    have hcr1 := hRA1.2.2.2.2.2.1
    have hd2 := deliver_single v2 t2 mid2 hsp hk2 hres1 hcr1
    simp only [show ({ cr with updatedAt := t1, value := some v1, children := [] } :
      NodeRec).updatedAt = t1 from rfl] at hd2
    -- second order: f2 then f1
    have hd1' := deliver_single v2 t2 mid2 hsp hk2 hres hcr
    rw [if_pos hu2] at hd1'
    have hRA1' := after_put_resolvedAt h3 h4 h5 h6 h7 hcr h9 h10 v2 t2
    have hres1' := resolve2_of_resolvedAt hRA1'
    have hcr1' := hRA1'.2.2.2.2.2.1
    have hd2' := deliver_single v1 t1 mid1 hsp hk2 hres1' hcr1'
    simp only [show ({ cr with updatedAt := t2, value := some v2, children := [] } :
      NodeRec).updatedAt = t2 from rfl] at hd2'
    rcases lt_or_gt_of_ne ht12 with hlt | hlt
    · -- t1 < t2: the second frame wins in both orders
      rw [if_pos hlt] at hd2
      rw [if_neg (lt_asymm hlt)] at hd2'
      have hRA2 := resolvedAt_after_put hRA1 v2 t2
      have hfin : storeLookup (putLocalOn c v2 t2
          (putLocalOn c v1 t1 s₂)) c =
          some { { cr with updatedAt := t1, value := some v1, children := [] } with
                 updatedAt := t2, value := some v2, children := [] } :=
        hRA2.2.2.2.2.2.1
      refine ⟨_, _, by rw [hd1]; exact hd2, by rw [hd1']; exact hd2', ?_, ?_, ?_, ?_⟩
      · unfold valueOf
        rw [handleLookup_of_ne _ _ h6, handleLookup_of_ne _ _ h6, hfin, hcr1']
      · unfold uatOf
        rw [handleLookup_of_ne _ _ h6, handleLookup_of_ne _ _ h6, hfin, hcr1']
      · unfold valueOf
        rw [handleLookup_of_ne _ _ h6, hfin, if_pos hlt]
        rfl
      · unfold uatOf
        rw [handleLookup_of_ne _ _ h6, hfin, max_eq_right (le_of_lt hlt)]
        rfl
    · -- t2 < t1: the first frame wins in both orders
      rw [if_neg (lt_asymm hlt)] at hd2
      rw [if_pos hlt] at hd2'
      have hRA2' := resolvedAt_after_put hRA1' v1 t1
      have hfin' : storeLookup (putLocalOn c v1 t1
          (putLocalOn c v2 t2 s₂)) c =
          some { { cr with updatedAt := t2, value := some v2, children := [] } with
                 updatedAt := t1, value := some v1, children := [] } :=
        hRA2'.2.2.2.2.2.1
      refine ⟨_, _, by rw [hd1]; exact hd2, by rw [hd1']; exact hd2', ?_, ?_, ?_, ?_⟩
      · unfold valueOf
        rw [handleLookup_of_ne _ _ h6, handleLookup_of_ne _ _ h6, hcr1, hfin']
      · unfold uatOf
        rw [handleLookup_of_ne _ _ h6, handleLookup_of_ne _ _ h6, hcr1, hfin']
      · unfold valueOf
        rw [handleLookup_of_ne _ _ h6, hcr1, if_neg (lt_asymm hlt)]
        rfl
      · unfold uatOf
        rw [handleLookup_of_ne _ _ h6, hcr1, max_eq_left (le_of_lt hlt)]
        rfl

/-- Witness for `c1_lww_merge` on a concrete frame: the fresh child resolved
for path `a`, field `x` has stored timestamp `0 < 7`, so the write applies. -/
theorem c1_lww_merge_witness :
    incomingMessage (createPutMsg ["a"] "x" (.Text "w") 7 "m") initState =
      (.ok (), putLocalOn 2 (.Text "w") 7 (resolve2 "a" "x" initState).2) :=
  (c1_lww_merge initState "a" "x" 2 (resolve2 "a" "x" initState).2
    { id := 2, updatedAt := 0, key := "x", path := ["a"], value := none,
      children := [], parents := [(1, "x")], onSubs := [], mapSubs := [] }
    rfl (by decide) rfl rfl).1 (.Text "w") 7 "m" (by norm_num)

/-! ## Claim C7 — path traversal in `incoming_put` -/

/-- C7 (counterexample): delivering a put entry keyed by the three-component
path `a/b/c` does not walk the components `a`, `b`, `c` from the root.  The
root instead gains a child keyed by the whole literal string `a/b/c` (and no
child `a`), and from there only the second component `b` is walked — the
third component `c` is never visited. -/
theorem c7_counterexample :
    alookup (incomingMessage (createPutMsg ["a/b/c"] "x" (.Text "w") 5 "m")
      initState).2.root.children "a" = none ∧
    alookup (incomingMessage (createPutMsg ["a/b/c"] "x" (.Text "w") 5 "m")
      initState).2.root.children "a/b/c" = some 1 ∧
    childIdOf (incomingMessage (createPutMsg ["a/b/c"] "x" (.Text "w") 5 "m")
      initState).2 1 "b" = some 2 ∧
    childIdOf (incomingMessage (createPutMsg ["a/b/c"] "x" (.Text "w") 5 "m")
      initState).2 1 "c" = none := ⟨rfl, rfl, rfl, rfl⟩

/-- C7 (amended): `incoming_put` does *not* split the entry path and walk
every component.  It calls `self.get(updated_key)` with the whole path
string as a single child key, then steps through only
`updated_key.split("/").nth(1)` (the second component) before the per-field
timestamp checks.  For the path `a/b/c` the vertex that receives the write
lives under root → `"a/b/c"` (one literal key) → `"b"`, its recorded path
is `["a/b/c", "b"]`, the root has no child `a`, and the component `c` is
never visited. -/
theorem c7_traversal (v : GunValue) (t : ℚ) (mid : String) (ht : 0 < t) :
    ∃ S : State,
      incomingMessage (createPutMsg ["a/b/c"] "x" v t mid) initState = (.ok (), S) ∧
      alookup S.root.children "a/b/c" = some 1 ∧
      alookup S.root.children "a" = none ∧
      childIdOf S 1 "b" = some 2 ∧
      childIdOf S 1 "c" = none ∧
      childIdOf S 2 "x" = some 3 ∧
      pathOf S 3 = some ["a/b/c", "b"] ∧
      valueOf S 3 = some v ∧
      uatOf S 3 = some t := by
  have hg3 : getOp 2 "x" (getOp 1 "b" (getOp 0 "a/b/c" initState).2).2 =
      (.ok 3, (getOp 2 "x" (getOp 1 "b" (getOp 0 "a/b/c" initState).2).2).2) := rfl
  have hcr : storeLookup (getOp 2 "x" (getOp 1 "b" (getOp 0 "a/b/c" initState).2).2).2 3 =
      some { id := 3, updatedAt := 0, key := "x", path := ["a/b/c", "b"], value := none,
             children := [], parents := [(2, "x")], onSubs := [], mapSubs := [] } := rfl
  refine ⟨putLocalOn 3 v t (getOp 2 "x" (getOp 1 "b" (getOp 0 "a/b/c" initState).2).2).2,
    ?_, rfl, rfl, rfl, rfl, rfl, rfl, rfl, rfl⟩
  rw [createPutMsg_single]
  show incomingObj
    [("#", .str mid), ("put", .obj [("a/b/c", putEntry "a/b/c" "x" (encodeGunValue v) t)])]
    initState = _
  rw [incomingObj_put_only
    [("#", .str mid), ("put", .obj [("a/b/c", putEntry "a/b/c" "x" (encodeGunValue v) t)])]
    initState [("a/b/c", putEntry "a/b/c" "x" (encodeGunValue v) t)] rfl rfl]
  unfold incomingPut
  show (match processFields 2 (putEntry "a/b/c" "x" (encodeGunValue v) t)
          [("x", Json.num t)] (getOp 1 "b" (getOp 0 "a/b/c" initState).2).2 with
        | (.ok _, s₁) => incomingPut [] s₁
        | (.error e, s₁) => ((Except.error e : Except Err Unit), s₁)) = _
  unfold processFields
  rw [processField_canonical v t (by decide) hg3 hcr]
  have hu : ({ id := 3, updatedAt := 0, key := "x", path := ["a/b/c", "b"],
               value := none, children := [], parents := [(2, "x")], onSubs := [],
               mapSubs := [] } : NodeRec).updatedAt < t := ht
  rw [if_pos hu]
  rfl

/-- Witness for `c7_traversal` at a concrete value and timestamp. -/
theorem c7_traversal_witness :
    ∃ S : State,
      incomingMessage (createPutMsg ["a/b/c"] "x" (.Text "w") 5 "m") initState =
        (.ok (), S) ∧
      alookup S.root.children "a/b/c" = some 1 ∧
      alookup S.root.children "a" = none ∧
      childIdOf S 1 "b" = some 2 ∧
      childIdOf S 1 "c" = none ∧
      childIdOf S 2 "x" = some 3 ∧
      pathOf S 3 = some ["a/b/c", "b"] ∧
      valueOf S 3 = some (.Text "w") ∧
      uatOf S 3 = some 5 :=
  c7_traversal (.Text "w") 5 "m" (by norm_num)
